import Mathlib

/-!
Verification of the `Topomesh` implementation
(`src/openalea/container/topomesh.py`) against its natural-language
specification.

The mesh state is embedded shallowly:

* a Python `dict` / `IdDict` mapping wisp id to its border/region sequence
  becomes an association list `IdMap` (keys are unique in every state the
  code builds, and all operations read/write the first occurrence, so the
  embedding is faithful also on arbitrary states);
* a Python `array("L")` becomes `List Nat`, with `append` = `· ++ [x]` and
  `remove` = erase of the first occurrence (raising `ValueError` when the
  element is absent);
* Python list indexing (`self._borders[degree]`) is embedded by `pyGet`,
  which faithfully reproduces negative-index wraparound: index `i` with
  `-len ≤ i < 0` silently accesses offset `len + i`, and only indices
  outside `[-len, len)` raise `IndexError`;
* a raised exception becomes the `Except` error case; mutating operations
  return `Except (MeshErr × Topomesh) Topomesh` where the error case also
  carries the state at the moment the exception was raised (Python
  mutations performed before the raise persist, and the embedding must
  expose them).

Error kinds are named after the specification's taxonomy: `invalidDegree`
covers `StrInvalidDegree` / `InvalidDegree` / uncaught `IndexError` on a
degree access, `invalidWisp` covers `KeyError` on a wisp lookup,
`notLinked` covers the `ValueError` raised by `array.remove`,
`duplicateId` the allocation failure for an occupied requested id, and
`otherErr` the remaining `TypeError`/`AttributeError` paths (e.g.
subscripting the `None` placeholder stored at `self._borders[0]`).
-/

deriving instance DecidableEq for Except

/-- Error kinds, following the specification's error taxonomy (§7). -/
inductive MeshErr where
  | invalidDegree
  | invalidWisp
  | notLinked
  | duplicateId
  | otherErr
deriving DecidableEq, Repr

/-- A Python `array("L")` of wisp ids. -/
abbrev WList := List Nat

/-- A Python mapping (dict or IdDict) from wisp id to id sequence,
embedded as an association list in insertion order. -/
abbrev IdMap := List (Nat × WList)

namespace IdMap

/-- Dictionary lookup: value at the first occurrence of the key. -/
def get? : IdMap → Nat → Option WList
  | [], _ => none
  | (k, v) :: rest, w => if k = w then some v else get? rest w

/-- Dictionary update: replace the value at an existing key in place,
or append a fresh key at the end (Python dicts preserve insertion order). -/
def set : IdMap → Nat → WList → IdMap
  | [], w, v => [(w, v)]
  | (k, x) :: rest, w, v =>
      if k = w then (w, v) :: rest else (k, x) :: set rest w v

/-- Dictionary deletion of the (first occurrence of the) key. -/
def erase : IdMap → Nat → IdMap
  | [], _ => []
  | (k, x) :: rest, w => if k = w then rest else (k, x) :: erase rest w

/-- The keys, in iteration order. -/
def keys (m : IdMap) : List Nat := m.map Prod.fst

/-- Modelled from the spec: the identifier allocator (§4.4 / §6), i.e.
`utils.IdDict.add` from the external `utils` module, which is not among the
sources.  `allocate(optional requested id) → id`: honours a requested id if
free, fails (DuplicateId) if it is occupied, and otherwise auto-assigns a
fresh, implementation-defined id.  The fresh id is chosen here as one past
the largest live id; no claim depends on the choice. -/
def add (m : IdMap) (v : WList) : Option Nat → Except MeshErr (Nat × IdMap)
  | some w =>
      if (IdMap.get? m w).isSome then .error .duplicateId
      else .ok (w, IdMap.set m w v)
  | none =>
      let w := m.foldr (fun p acc => max (p.1 + 1) acc) 0
      .ok (w, IdMap.set m w v)

end IdMap

/-- Python `list.remove` on an id sequence: delete the first occurrence,
`none` (ValueError) when the element is absent. -/
def removeFirst (l : WList) (x : Nat) : Option WList :=
  if x ∈ l then some (l.erase x) else none

/-- Python list indexing: resolve a possibly negative index against a list
length.  `0 ≤ i < len` is used as is, `-len ≤ i < 0` wraps to `len + i`,
anything else is an `IndexError`. -/
def pyResolve (len : Nat) (i : Int) : Option Nat :=
  if 0 ≤ i then (if i < (len : Int) then some i.toNat else none)
  else (if -(len : Int) ≤ i then some (i + len).toNat else none)

/-- Python list indexing returning the resolved offset and the element. -/
def pyGet {α : Type} (l : List α) (i : Int) : Option (Nat × α) :=
  (pyResolve l.length i).bind (fun j => (l.get? j).map (fun a => (j, a)))

/-- The state of a `Topomesh` instance: maximum degree `deg` (the
immutable `self._degree`), the per-degree border tables
`self._borders = [None] + [IdDict() for _ in range(degree)]`, and the
per-degree region tables
`self._regions = [IdDict()] + [{} for _ in range(degree - 1)]`. -/
structure Topomesh where
  deg : Nat
  _borders : List (Option IdMap)
  _regions : List IdMap
deriving DecidableEq, Repr

namespace Topomesh

/-- Replace the border table at resolved offset `j`. -/
def setB (s : Topomesh) (j : Nat) (m : IdMap) : Topomesh :=
  { s with _borders := s._borders.set j (some m) }

/-- Replace the region table at resolved offset `j`. -/
def setR (s : Topomesh) (j : Nat) (m : IdMap) : Topomesh :=
  { s with _regions := s._regions.set j m }

/-- The border table at (nonnegative) degree `d`, defaulting to the empty
table when the slot is missing or holds the `None` placeholder. -/
def bmap (s : Topomesh) (d : Nat) : IdMap :=
  match s._borders.get? d with
  | some (some m) => m
  | _ => []

/-- The region table at (nonnegative) degree `d`. -/
def rmap (s : Topomesh) (d : Nat) : IdMap :=
  (s._regions.get? d).getD []

/-- Source `Topomesh.degree`: the mesh's maximum degree `D`. -/
def degree (s : Topomesh) : Nat := s.deg

/-- Source `Topomesh.is_valid` — the source returns the constant `True`. -/
def is_valid (_ : Topomesh) : Bool := true

/-- Source `Topomesh.has_wisp(degree, wid)`. -/
def has_wisp (s : Topomesh) (degree : Int) (wid : Nat) : Except MeshErr Bool :=
  if degree = 0 then
    match pyGet s._regions degree with
    | none => .error .invalidDegree
    | some (_, m) => .ok ((IdMap.get? m wid).isSome)
  else
    match pyGet s._borders degree with
    | none => .error .invalidDegree
    | some (_, none) => .error .otherErr
    | some (_, some m) => .ok ((IdMap.get? m wid).isSome)

/-- Source `Topomesh.wisps(degree)`: the ids at a degree, in table order. -/
def wisps (s : Topomesh) (degree : Int) : Except MeshErr (List Nat) :=
  if degree = 0 then
    match pyGet s._regions degree with
    | none => .error .invalidDegree
    | some (_, m) => .ok (IdMap.keys m)
  else
    match pyGet s._borders degree with
    | none => .error .invalidDegree
    | some (_, none) => .error .otherErr
    | some (_, some m) => .ok (IdMap.keys m)

/-- Source `Topomesh.nb_wisps(degree)`. -/
def nb_wisps (s : Topomesh) (degree : Int) : Except MeshErr Nat :=
  if degree = 0 then
    match pyGet s._regions degree with
    | none => .error .invalidDegree
    | some (_, m) => .ok m.length
  else
    match pyGet s._borders degree with
    | none => .error .invalidDegree
    | some (_, none) => .error .otherErr
    | some (_, some m) => .ok m.length

/-- Source `Topomesh._iter_borders(degree, wid)`:
`iter(self._borders[degree][wid])`. -/
def iterBorders (s : Topomesh) (degree : Int) (wid : Nat) :
    Except MeshErr WList :=
  match pyGet s._borders degree with
  | none => .error .invalidDegree
  | some (_, none) => .error .otherErr
  | some (_, some m) =>
    match IdMap.get? m wid with
    | none => .error .invalidWisp
    | some l => .ok l

/-- Source `Topomesh._iter_regions(degree, wid)`:
`iter(self._regions[degree][wid])`. -/
def iterRegions (s : Topomesh) (degree : Int) (wid : Nat) :
    Except MeshErr WList :=
  match pyGet s._regions degree with
  | none => .error .invalidDegree
  | some (_, m) =>
    match IdMap.get? m wid with
    | none => .error .invalidWisp
    | some l => .ok l

/-- Python set accumulation `ret |= set(l)`: append the elements of `l`
that are not already present, keeping first-insertion order.  The source
iterates over the resulting set in an unspecified order; no claim relies
on the order, only on the elements, so this deterministic duplicate-free
list is a faithful embedding of the set. -/
def unionList (acc l : List Nat) : List Nat :=
  l.foldl (fun a x => if x ∈ a then a else a ++ [x]) acc

/-- The `else` branch loop of `_borders_with_offset`
(resp. `_regions_with_offset`): accumulate
`ret |= set(recurse(iterF(wid)))` over the input ids.  `iterF` is the
relation lookup at the current degree and `recF` the recursive call one
degree further with one less offset. -/
def setUnion (iterF : Nat → Except MeshErr WList)
    (recF : WList → Except MeshErr WList) :
    List Nat → List Nat → Except MeshErr (List Nat)
  | acc, [] => .ok acc
  | acc, w :: rest =>
    match iterF w with
    | .error e => .error e
    | .ok bl =>
      match recF bl with
      | .error e => .error e
      | .ok sub => setUnion iterF recF (unionList acc sub) rest

/-- Source `Topomesh._borders_with_offset(degree, wids, offset)`.  Offset `0`
returns the ids unchanged; otherwise the recursion one degree down is
accumulated into a set (embedded as a duplicate-free list). -/
def bordersWithOffset (s : Topomesh) :
    Nat → Int → List Nat → Except MeshErr (List Nat)
  | 0, _, wids => .ok wids
  | off + 1, degree, wids =>
    setUnion (iterBorders s degree)
      (fun l => bordersWithOffset s off (degree - 1) l) [] wids

/-- Source `Topomesh._regions_with_offset(degree, wids, offset)`. -/
def regionsWithOffset (s : Topomesh) :
    Nat → Int → List Nat → Except MeshErr (List Nat)
  | 0, _, wids => .ok wids
  | off + 1, degree, wids =>
    setUnion (iterRegions s degree)
      (fun l => regionsWithOffset s off (degree + 1) l) [] wids

/-- Source `Topomesh.borders(degree, wid, offset=1)`. -/
def borders (s : Topomesh) (degree : Int) (wid : Nat) (offset : Nat := 1) :
    Except MeshErr (List Nat) :=
  if degree - (offset : Int) < 0 then .error .invalidDegree
  else bordersWithOffset s offset degree [wid]

/-- Source `Topomesh.regions(degree, wid, offset=1)`. -/
def regions (s : Topomesh) (degree : Int) (wid : Nat) (offset : Nat := 1) :
    Except MeshErr (List Nat) :=
  if degree + (offset : Int) > (s.deg : Int) then .error .invalidDegree
  else regionsWithOffset s offset degree [wid]

/-- Inner loop of `Topomesh.border_neighbors`: for each border id, yield
the regions of that border other than `wid` itself. -/
def bnAux (s : Topomesh) (degree : Int) (wid : Nat) :
    List Nat → Except MeshErr (List Nat)
  | [] => .ok []
  | b :: rest =>
    match regions s (degree - 1) b 1 with
    | .error e => .error e
    | .ok rs =>
      match bnAux s degree wid rest with
      | .error e => .error e
      | .ok out => .ok (rs.filter (fun r => r ≠ wid) ++ out)

/-- Source `Topomesh.border_neighbors(degree, wid)`: the fully consumed generator
`(rid for bid in self.borders(degree, wid)
      for rid in self.regions(degree - 1, bid) if rid != wid)`. -/
def border_neighbors (s : Topomesh) (degree : Int) (wid : Nat) :
    Except MeshErr (List Nat) :=
  match borders s degree wid 1 with
  | .error e => .error e
  | .ok bs => bnAux s degree wid bs

/-- Source `Topomesh.link(degree, wid, border_id)`.  The two appends are separate
mutations: when the second lookup raises, the first append persists, and
the carried state records it. -/
def link (s : Topomesh) (degree : Int) (wid border_id : Nat) :
    Except (MeshErr × Topomesh) Topomesh :=
  if degree < 1 then .error (.invalidDegree, s)
  else
    match pyGet s._borders degree with
    | none => .error (.invalidDegree, s)
    | some (_, none) => .error (.otherErr, s)
    | some (j, some m) =>
      match IdMap.get? m wid with
      | none => .error (.invalidWisp, s)
      | some bl =>
        let s1 := setB s j (IdMap.set m wid (bl ++ [border_id]))
        match pyGet s1._regions (degree - 1) with
        | none => .error (.invalidDegree, s1)
        | some (i, rm) =>
          match IdMap.get? rm border_id with
          | none => .error (.invalidWisp, s1)
          | some rl => .ok (setR s1 i (IdMap.set rm border_id (rl ++ [wid])))

/-- Source `Topomesh.unlink(degree, wid, border_id)`.  The two `remove` calls are
separate mutations, exactly as in the source. -/
def unlink (s : Topomesh) (degree : Int) (wid border_id : Nat) :
    Except (MeshErr × Topomesh) Topomesh :=
  if degree < 1 then .error (.invalidDegree, s)
  else
    match pyGet s._borders degree with
    | none => .error (.invalidDegree, s)
    | some (_, none) => .error (.otherErr, s)
    | some (j, some m) =>
      match IdMap.get? m wid with
      | none => .error (.invalidWisp, s)
      | some bl =>
        match removeFirst bl border_id with
        | none => .error (.notLinked, s)
        | some bl' =>
          let s1 := setB s j (IdMap.set m wid bl')
          match pyGet s1._regions (degree - 1) with
          | none => .error (.invalidDegree, s1)
          | some (i, rm) =>
            match IdMap.get? rm border_id with
            | none => .error (.invalidWisp, s1)
            | some rl =>
              match removeFirst rl wid with
              | none => .error (.notLinked, s1)
              | some rl' => .ok (setR s1 i (IdMap.set rm border_id rl'))

/-- Source `Topomesh.add_wisp(degree, wid=None)`.  Only offset 0 of
`self._regions` holds an `IdDict` (with an `add` method); hitting any
other offset through negative-index wraparound raises `AttributeError`. -/
def add_wisp (s : Topomesh) (degree : Int) (wid? : Option Nat) :
    Except (MeshErr × Topomesh) (Nat × Topomesh) :=
  if degree > 0 then
    match pyGet s._borders degree with
    | none => .error (.invalidDegree, s)
    | some (_, none) => .error (.otherErr, s)
    | some (j, some m) =>
      match IdMap.add m [] wid? with
      | .error e => .error (e, s)
      | .ok (w, m') =>
        let s1 := setB s j m'
        if degree < (s1.deg : Int) then
          match pyGet s1._regions degree with
          | none => .error (.invalidDegree, s1)
          | some (i, rm) => .ok (w, setR s1 i (IdMap.set rm w []))
        else .ok (w, s1)
  else
    match pyGet s._regions degree with
    | none => .error (.invalidDegree, s)
    | some (i, rm) =>
      if i = 0 then
        match IdMap.add rm [] wid? with
        | .error e => .error (e, s)
        | .ok (w, rm') => .ok (w, setR s i rm')
      else .error (.otherErr, s)

/-- Region-side loop of `remove_wisp`:
`for rid in tuple(self.regions(degree, wid)): self.unlink(degree+1, rid, wid)`. -/
def unlinkRegionsLoop (degree : Int) (wid : Nat) :
    Topomesh → List Nat → Except (MeshErr × Topomesh) Topomesh
  | s, [] => .ok s
  | s, rid :: rest =>
    match unlink s (degree + 1) rid wid with
    | .error e => .error e
    | .ok s' => unlinkRegionsLoop degree wid s' rest

/-- Border-side loop of `remove_wisp`:
`for bid in tuple(self.borders(degree, wid)): self.unlink(degree, wid, bid)`. -/
def unlinkBordersLoop (degree : Int) (wid : Nat) :
    Topomesh → List Nat → Except (MeshErr × Topomesh) Topomesh
  | s, [] => .ok s
  | s, bid :: rest =>
    match unlink s degree wid bid with
    | .error e => .error e
    | .ok s' => unlinkBordersLoop degree wid s' rest

/-- Source `del self._regions[degree][wid]` (KeyError when the key is absent). -/
def delRegionEntry (s : Topomesh) (degree : Int) (wid : Nat) :
    Except (MeshErr × Topomesh) Topomesh :=
  match pyGet s._regions degree with
  | none => .error (.invalidDegree, s)
  | some (j, m) =>
    match IdMap.get? m wid with
    | none => .error (.invalidWisp, s)
    | some _ => .ok (setR s j (IdMap.erase m wid))

/-- Source `del self._borders[degree][wid]`. -/
def delBorderEntry (s : Topomesh) (degree : Int) (wid : Nat) :
    Except (MeshErr × Topomesh) Topomesh :=
  match pyGet s._borders degree with
  | none => .error (.invalidDegree, s)
  | some (_, none) => .error (.otherErr, s)
  | some (j, some m) =>
    match IdMap.get? m wid with
    | none => .error (.invalidWisp, s)
    | some _ => .ok (setB s j (IdMap.erase m wid))

/-- Propagation of a raised exception out of a statement sequence: the
remaining statements run only when no exception was raised. -/
def mbind (x : Except (MeshErr × Topomesh) Topomesh)
    (f : Topomesh → Except (MeshErr × Topomesh) Topomesh) :
    Except (MeshErr × Topomesh) Topomesh :=
  match x with
  | .error e => .error e
  | .ok s1 => f s1

/-- Source `Topomesh.remove_wisp(degree, wid)`: unlink from the regions above,
then from the borders below, then delete the element's storage. -/
def remove_wisp (s : Topomesh) (degree : Int) (wid : Nat) :
    Except (MeshErr × Topomesh) Topomesh :=
  mbind (if degree < (s.deg : Int) then
          match regions s degree wid 1 with
          | .error e => .error (e, s)
          | .ok rl => unlinkRegionsLoop degree wid s rl
        else .ok s) (fun s1 =>
  mbind (if degree > 0 then
          match borders s1 degree wid 1 with
          | .error e => .error (e, s1)
          | .ok bl => unlinkBordersLoop degree wid s1 bl
        else .ok s1) (fun s2 =>
  mbind (if degree < (s2.deg : Int) then delRegionEntry s2 degree wid
         else .ok s2) (fun s3 =>
  if degree > 0 then delBorderEntry s3 degree wid else .ok s3)))

end Topomesh

/-! ## Specification predicates -/

/-- The symmetry invariant (spec §3): for every degree `d ≥ 1`, every wisp
`w` at degree `d` and every border id `b`, the multiplicity of `b` in
`borders(d, w)` equals the multiplicity of `w` in `regions(d-1, b)`.
A missing table entry counts as the empty sequence, so the equation also
forces every referenced id to have a matching table entry. -/
def SymInv (s : Topomesh) : Prop :=
  ∀ d : Nat, 1 ≤ d → d ≤ s.deg → ∀ w b : Nat,
    ((IdMap.get? (Topomesh.bmap s d) w).getD []).count b =
      ((IdMap.get? (Topomesh.rmap s (d - 1)) b).getD []).count w

/-- Structural well-formedness of a mesh state, as established by the
constructor and preserved by every operation: table-list lengths, the
`None` placeholder at border degree 0, genuine tables at border degrees
`1..D`, and coincidence of the key sets of the border and region tables at
every degree `1..D-1` (`add_wisp` creates both entries together). -/
def MeshWF (s : Topomesh) : Prop :=
  s._borders.length = s.deg + 1 ∧
  s._regions.length = max s.deg 1 ∧
  s._borders.get? 0 = some none ∧
  (∀ d : Nat, 1 ≤ d → d ≤ s.deg →
      ∃ m : IdMap, s._borders.get? d = some (some m)) ∧
  (∀ d : Nat, 1 ≤ d → d < s.deg → ∀ w : Nat,
      (IdMap.get? (Topomesh.bmap s d) w).isSome ↔
        (IdMap.get? (Topomesh.rmap s d) w).isSome)

/-! ## Concrete states used by counterexamples and witnesses -/

/-- A degree-1 mesh: vertex `0`, edge `0`, with the edge linked twice to
the vertex (`link(1,0,0)` performed twice — duplicate incidences are
expressly permitted by the data model). -/
def meshDup : Topomesh :=
  { deg := 1
    _borders := [none, some [(0, [0, 0])]]
    _regions := [[(0, [0, 0])]] }

/-- A degree-1 mesh: vertex `0` and edge `0`, not linked. -/
def meshFree : Topomesh :=
  { deg := 1
    _borders := [none, some [(0, [])]]
    _regions := [[(0, [])]] }

/-- The state `link meshFree 1 0 5` leaves behind when it raises: border
id `5` has already been appended to the edge's border sequence. -/
def meshFreeLeak : Topomesh :=
  { deg := 1
    _borders := [none, some [(0, [5])]]
    _regions := [[(0, [])]] }

/-- A degree-1 mesh with vertices `0`, `1` and edges `0`, `1`, both edges
linked to vertex `0` (they are border-neighbors through it). -/
def meshTwoEdges : Topomesh :=
  { deg := 1
    _borders := [none, some [(0, [0]), (1, [0])]]
    _regions := [[(0, [0, 1]), (1, [])]] }

/-! ## Decidable checks for the spec predicates on concrete states -/

/-- All keys and all sequence elements of a table are drawn from `ids`. -/
def coveredBy (m : IdMap) (ids : List Nat) : Bool :=
  m.all (fun p => ids.contains p.1 && p.2.all (fun x => ids.contains x))

/-- Checks that `ids` covers every id mentioned anywhere in the state's tables. -/
def idsCover (s : Topomesh) (ids : List Nat) : Bool :=
  (List.range (s.deg + 1)).all (fun d =>
    coveredBy (Topomesh.bmap s d) ids && coveredBy (Topomesh.rmap s d) ids)

/-- The symmetry invariant, checked on the finitely many ids in `ids`. -/
def symInvCheckOn (s : Topomesh) (ids : List Nat) : Bool :=
  (List.range s.deg).all (fun i =>
    ids.all (fun w => ids.all (fun b =>
      ((IdMap.get? (Topomesh.bmap s (i + 1)) w).getD []).count b
        == ((IdMap.get? (Topomesh.rmap s i) b).getD []).count w)))

/-- A decidable sufficient condition for `MeshWF` on concrete states. -/
def wfCheck (s : Topomesh) : Bool :=
  (s._borders.length == s.deg + 1) &&
  (s._regions.length == max s.deg 1) &&
  (match s._borders.get? 0 with | some none => true | _ => false) &&
  ((List.range s.deg).all fun i =>
      match s._borders.get? (i + 1) with
      | some (some _) => true
      | _ => false) &&
  ((List.range s.deg).all fun i =>
      if i + 1 < s.deg then
        (Topomesh.bmap s (i + 1)).all
            (fun p => (IdMap.get? (Topomesh.rmap s (i + 1)) p.1).isSome) &&
          (Topomesh.rmap s (i + 1)).all
            (fun p => (IdMap.get? (Topomesh.bmap s (i + 1)) p.1).isSome)
      else true)

/-! ## Further concrete states -/

/-- The state `remove_wisp meshDup 0 0` produces: the vertex is gone, but
the edge still lists border id `0` once. -/
def meshDupAfter : Topomesh :=
  { deg := 1
    _borders := [none, some [(0, [0])]]
    _regions := [[]] }


/-- The border table reached through Python indexing at (possibly
negative) degree `i`. -/
def bmapAt (s : Topomesh) (i : Int) : IdMap :=
  match pyGet s._borders i with
  | some (_, some m) => m
  | _ => []

/-- The region table reached through Python indexing at degree `i`. -/
def rmapAt (s : Topomesh) (i : Int) : IdMap :=
  match pyGet s._regions i with
  | some (_, m) => m
  | _ => []

/-- The stored border sequence of wisp `w` at degree `i` (empty when
absent). -/
def bordersSeq (s : Topomesh) (i : Int) (w : Nat) : WList :=
  (IdMap.get? (bmapAt s i) w).getD []

/-- Reachability `ReachB s off d w x`: `x` is reachable from wisp `w` at degree `d` by
following stored border sequences exactly `off` steps downward. -/
def ReachB (s : Topomesh) : Nat → Int → Nat → Nat → Prop
  | 0, _, w, x => x = w
  | off + 1, d, w, x => ∃ b ∈ bordersSeq s d w, ReachB s off (d - 1) b x

/-- The stored region sequence of wisp `w` at degree `i` (empty when
absent). -/
def regionsSeq (s : Topomesh) (i : Int) (w : Nat) : WList :=
  (IdMap.get? (rmapAt s i) w).getD []

/-- The amended atomicity property of C2: from a well-formed state
satisfying the symmetry invariant, `add_wisp`, `remove_wisp` and `unlink`
leave the store unchanged whenever they report an error; `link` leaves the
store unchanged for every error except the one the counterexample forces:
when it fails because `border_id` has no region-table entry at
`degree - 1`, it has already appended `border_id` to
`borders(degree, wid)`, and that append persists. -/
def AtomicSpec (s : Topomesh) : Prop :=
  (∀ (d : Int) (w? : Option Nat) (e : MeshErr) (t : Topomesh),
      Topomesh.add_wisp s d w? = .error (e, t) → t = s) ∧
  (∀ (d : Int) (w : Nat) (e : MeshErr) (t : Topomesh),
      Topomesh.remove_wisp s d w = .error (e, t) → t = s) ∧
  (∀ (d : Int) (w b : Nat) (e : MeshErr) (t : Topomesh),
      Topomesh.unlink s d w b = .error (e, t) → t = s) ∧
  (∀ (d : Int) (w b : Nat) (e : MeshErr) (t : Topomesh),
      Topomesh.link s d w b = .error (e, t) →
        t = s ∨
        (e = .invalidWisp ∧ 1 ≤ d ∧
          IdMap.get? (rmapAt s (d - 1)) b = none ∧
          ∃ m bl, pyGet s._borders d = some (d.toNat, some m) ∧
            IdMap.get? m w = some bl ∧
            t = Topomesh.setB s d.toNat (IdMap.set m w (bl ++ [b]))))

/-! ## Lemmas -/

theorem Topomesh.mbind_ok (s1 : Topomesh)
    (f : Topomesh → Except (MeshErr × Topomesh) Topomesh) :
    Topomesh.mbind (.ok s1) f = f s1 := rfl

theorem Topomesh.mbind_err (e : MeshErr × Topomesh)
    (f : Topomesh → Except (MeshErr × Topomesh) Topomesh) :
    Topomesh.mbind (.error e) f = .error e := rfl


/-! ## Basic lemmas about the embedded dictionaries and list indexing -/

theorem IdMap.get?_set_self (m : IdMap) (w : Nat) (v : WList) :
    IdMap.get? (IdMap.set m w v) w = some v := by
  induction m with
  | nil => simp [IdMap.set, IdMap.get?]
  | cons p rest ih =>
    obtain ⟨k, x⟩ := p
    by_cases h : k = w
    · simp [IdMap.set, IdMap.get?, h]
    · simp [IdMap.set, IdMap.get?, h, ih]

theorem IdMap.get?_set_ne (m : IdMap) (w w' : Nat) (v : WList)
    (h : w' ≠ w) : IdMap.get? (IdMap.set m w v) w' = IdMap.get? m w' := by
  have h2 : w ≠ w' := Ne.symm h
  induction m with
  | nil => simp [IdMap.set, IdMap.get?, h2]
  | cons p rest ih =>
    obtain ⟨k, x⟩ := p
    by_cases hk : k = w
    · subst hk
      simp [IdMap.set, IdMap.get?, h2]
    · by_cases hk' : k = w'
      · simp [IdMap.set, IdMap.get?, hk, hk', h]
      · simp [IdMap.set, IdMap.get?, hk, hk', ih]

theorem IdMap.get?_isSome_of_mem (m : IdMap) (w : Nat)
    (h : ∃ v, (w, v) ∈ m) : (IdMap.get? m w).isSome := by
  obtain ⟨v, hv⟩ := h
  induction m with
  | nil => cases hv
  | cons p rest ih =>
    obtain ⟨k, x⟩ := p
    by_cases hk : k = w
    · simp [IdMap.get?, hk]
    · rcases List.mem_cons.mp hv with h1 | h1
      · cases h1; simp at hk
      · simpa [IdMap.get?, hk] using ih h1

theorem IdMap.mem_of_get?_eq_some (m : IdMap) (w : Nat) (v : WList)
    (h : IdMap.get? m w = some v) : (w, v) ∈ m := by
  induction m with
  | nil => simp [IdMap.get?] at h
  | cons p rest ih =>
    obtain ⟨k, x⟩ := p
    by_cases hk : k = w
    · rw [IdMap.get?, if_pos hk] at h
      cases h
      subst hk
      exact List.mem_cons_self _ _
    · rw [IdMap.get?, if_neg hk] at h
      exact List.mem_cons_of_mem _ (ih h)

theorem pyResolve_of_nonneg (len : Nat) (i : Int) (h0 : 0 ≤ i)
    (h1 : i < (len : Int)) : pyResolve len i = some i.toNat := by
  simp [pyResolve, h0, h1]

theorem pyGet_of_nonneg {α : Type} (l : List α) (i : Int) (a : α)
    (h0 : 0 ≤ i) (h : l.get? i.toNat = some a) :
    pyGet l i = some (i.toNat, a) := by
  have hlt : i.toNat < l.length := (List.get?_eq_some.mp h).1
  have hlt' : i < (l.length : Int) := by omega
  rw [pyGet, pyResolve_of_nonneg _ _ h0 hlt']
  simp only [Option.some_bind, h]
  rfl

theorem pyGet_get? {α : Type} (l : List α) (i : Int) (j : Nat) (a : α)
    (h : pyGet l i = some (j, a)) : l.get? j = some a := by
  rw [pyGet] at h
  rcases hr : pyResolve l.length i with _ | k
  · rw [hr] at h; cases h
  · rw [hr] at h
    simp only [Option.some_bind] at h
    rcases hg : l.get? k with _ | b
    · rw [hg] at h; cases h
    · rw [hg] at h
      cases h
      exact hg

theorem pyGet_none_of_ge {α : Type} (l : List α) (i : Int)
    (h : (l.length : Int) ≤ i) : pyGet l i = none := by
  have h0 : 0 ≤ i := le_trans (by positivity) h
  rw [pyGet, pyResolve, if_pos h0, if_neg (by omega)]
  rfl

/-! ## State access under well-formedness, and success characterizations -/

theorem MeshWF.borders_get {s : Topomesh} (hWF : MeshWF s) (d : Nat)
    (h1 : 1 ≤ d) (h2 : d ≤ s.deg) :
    s._borders.get? d = some (some (Topomesh.bmap s d)) := by
  obtain ⟨-, -, -, hex, -⟩ := hWF
  obtain ⟨m, hm⟩ := hex d h1 h2
  rw [hm, Topomesh.bmap, hm]

theorem MeshWF.regions_get {s : Topomesh} (hWF : MeshWF s) (d : Nat)
    (h : d < max s.deg 1) :
    s._regions.get? d = some (Topomesh.rmap s d) := by
  obtain ⟨-, hlen, -, -, -⟩ := hWF
  have hd : d < s._regions.length := by omega
  rcases hg : s._regions.get? d with _ | m
  · rw [List.get?_eq_none] at hg; omega
  · rw [Topomesh.rmap, hg]; rfl

theorem unlink_ok (s : Topomesh) (d : Int) (w b : Nat) (m rm : IdMap)
    (bl rl : WList) (h1 : 1 ≤ d)
    (hb : s._borders.get? d.toNat = some (some m))
    (hbl : IdMap.get? m w = some bl) (hbin : b ∈ bl)
    (hr : s._regions.get? (d - 1).toNat = some rm)
    (hrl : IdMap.get? rm b = some rl) (hwin : w ∈ rl) :
    Topomesh.unlink s d w b = .ok
      { deg := s.deg
        _borders := s._borders.set d.toNat (some (IdMap.set m w (bl.erase b)))
        _regions :=
          s._regions.set (d - 1).toNat (IdMap.set rm b (rl.erase w)) } := by
  have hd0 : (0 : Int) ≤ d := by omega
  have hd10 : (0 : Int) ≤ d - 1 := by omega
  have hpg1 : pyGet s._borders d = some (d.toNat, some m) :=
    pyGet_of_nonneg _ _ _ hd0 hb
  have hpg2 : pyGet s._regions (d - 1) = some ((d - 1).toNat, rm) :=
    pyGet_of_nonneg _ _ _ hd10 hr
  simp only [Topomesh.unlink, if_neg (by omega : ¬d < 1), hpg1, hbl,
    removeFirst, if_pos hbin, Topomesh.setB, Topomesh.setR, hpg2, hrl,
    if_pos hwin]

theorem link_ok (s : Topomesh) (d : Int) (w b : Nat) (m rm : IdMap)
    (bl rl : WList) (h1 : 1 ≤ d)
    (hb : s._borders.get? d.toNat = some (some m))
    (hbl : IdMap.get? m w = some bl)
    (hr : s._regions.get? (d - 1).toNat = some rm)
    (hrl : IdMap.get? rm b = some rl) :
    Topomesh.link s d w b = .ok
      { deg := s.deg
        _borders := s._borders.set d.toNat (some (IdMap.set m w (bl ++ [b])))
        _regions :=
          s._regions.set (d - 1).toNat (IdMap.set rm b (rl ++ [w])) } := by
  have hd0 : (0 : Int) ≤ d := by omega
  have hd10 : (0 : Int) ≤ d - 1 := by omega
  have hpg1 : pyGet s._borders d = some (d.toNat, some m) :=
    pyGet_of_nonneg _ _ _ hd0 hb
  have hpg2 : pyGet s._regions (d - 1) = some ((d - 1).toNat, rm) :=
    pyGet_of_nonneg _ _ _ hd10 hr
  simp only [Topomesh.link, if_neg (by omega : ¬d < 1), hpg1, hbl,
    Topomesh.setB, Topomesh.setR, hpg2, hrl]

theorem coveredBy_spec (m : IdMap) (ids : List Nat) (w : Nat) (v : WList)
    (h : coveredBy m ids = true) (hm : IdMap.get? m w = some v) :
    w ∈ ids ∧ ∀ x ∈ v, x ∈ ids := by
  have hmem := IdMap.mem_of_get?_eq_some m w v hm
  rw [coveredBy, List.all_eq_true] at h
  have := h _ hmem
  simp at this
  exact ⟨this.1, this.2⟩

theorem count_eq_zero_of_covered (rl : WList) (ids : List Nat) (w : Nat)
    (hsub : ∀ x ∈ rl, x ∈ ids) (hw : w ∉ ids) : rl.count w = 0 :=
  List.count_eq_zero_of_not_mem (fun hmem => hw (hsub w hmem))

theorem symInv_of_check (s : Topomesh) (ids : List Nat)
    (hc : idsCover s ids = true) (h : symInvCheckOn s ids = true) :
    SymInv s := by
  intro d h1 h2 w b
  rw [idsCover, List.all_eq_true] at hc
  have hcd := hc d (by rw [List.mem_range]; omega)
  have hcd1 := hc (d - 1) (by rw [List.mem_range]; omega)
  simp only [Bool.and_eq_true] at hcd hcd1
  by_cases hw : w ∈ ids
  · by_cases hb : b ∈ ids
    · rw [symInvCheckOn, List.all_eq_true] at h
      have hi := h (d - 1) (by rw [List.mem_range]; omega)
      rw [List.all_eq_true] at hi
      have hi2 := hi w hw
      rw [List.all_eq_true] at hi2
      have hi3 := hi2 b hb
      rw [Nat.beq_eq_true_eq] at hi3
      have hd1 : d - 1 + 1 = d := by omega
      rw [hd1] at hi3
      exact hi3
    · -- b names no id of the state: both counts are 0
      have hL : ((IdMap.get? (Topomesh.bmap s d) w).getD []).count b = 0 := by
        rcases hg : IdMap.get? (Topomesh.bmap s d) w with _ | v
        · simp
        · have := coveredBy_spec _ _ _ _ hcd.1 hg
          simpa using count_eq_zero_of_covered v ids b this.2 hb
      have hR : ((IdMap.get? (Topomesh.rmap s (d - 1)) b).getD []).count w
          = 0 := by
        rcases hg : IdMap.get? (Topomesh.rmap s (d - 1)) b with _ | v
        · simp
        · have := coveredBy_spec _ _ _ _ hcd1.2 hg
          exact absurd this.1 hb
      rw [hL, hR]
  · -- w names no id of the state: both counts are 0
    have hL : ((IdMap.get? (Topomesh.bmap s d) w).getD []).count b = 0 := by
      rcases hg : IdMap.get? (Topomesh.bmap s d) w with _ | v
      · simp
      · have := coveredBy_spec _ _ _ _ hcd.1 hg
        exact absurd this.1 hw
    have hR : ((IdMap.get? (Topomesh.rmap s (d - 1)) b).getD []).count w
        = 0 := by
      rcases hg : IdMap.get? (Topomesh.rmap s (d - 1)) b with _ | v
      · simp
      · have := coveredBy_spec _ _ _ _ hcd1.2 hg
        simpa using count_eq_zero_of_covered v ids w this.2 hw
    rw [hL, hR]

theorem get?_isSome_exists (m : IdMap) (w : Nat)
    (h : (IdMap.get? m w).isSome) : ∃ v, IdMap.get? m w = some v ∧
      (w, v) ∈ m := by
  rcases hg : IdMap.get? m w with _ | v
  · rw [hg] at h; cases h
  · exact ⟨v, rfl, IdMap.mem_of_get?_eq_some m w v hg⟩

theorem wf_of_check (s : Topomesh) (h : wfCheck s = true) : MeshWF s := by
  rw [wfCheck] at h
  simp only [Bool.and_eq_true, beq_iff_eq] at h
  obtain ⟨⟨⟨⟨h1, h2⟩, h3⟩, h4⟩, h5⟩ := h
  refine ⟨h1, h2, ?_, ?_, ?_⟩
  · rcases hg : s._borders.get? 0 with _ | o
    · rw [hg] at h3; cases h3
    · rcases o with _ | m
      · rfl
      · rw [hg] at h3; cases h3
  · intro d hd1 hd2
    rw [List.all_eq_true] at h4
    have := h4 (d - 1) (by rw [List.mem_range]; omega)
    have hd : d - 1 + 1 = d := by omega
    rw [hd] at this
    rcases hg : s._borders.get? d with _ | o
    · rw [hg] at this; cases this
    · rcases o with _ | m
      · rw [hg] at this; cases this
      · exact ⟨m, rfl⟩
  · intro d hd1 hd2 w
    rw [List.all_eq_true] at h5
    have := h5 (d - 1) (by rw [List.mem_range]; omega)
    have hd : d - 1 + 1 = d := by omega
    rw [hd, if_pos (by omega)] at this
    simp only [Bool.and_eq_true, List.all_eq_true] at this
    constructor
    · intro hs
      obtain ⟨v, -, hmem⟩ := get?_isSome_exists _ _ hs
      exact this.1 _ hmem
    · intro hs
      obtain ⟨v, -, hmem⟩ := get?_isSome_exists _ _ hs
      exact this.2 _ hmem

/-! ## Claims -/

/-- Claim C10: for every degree argument `d ≥ 0` and every id `wid`,
`borders(d, wid, 0)` succeeds and yields exactly `[wid]`, even when no
wisp with id `wid` exists at degree `d` and even when `d > D`;
symmetrically `regions(d, wid, 0)` succeeds and yields exactly `[wid]`
whenever `d ≤ D`, regardless of whether the wisp exists. -/
theorem claim10_offset_zero_echoes_id (s : Topomesh) (d : Int) (w : Nat) :
    (0 ≤ d → Topomesh.borders s d w 0 = .ok [w]) ∧
    (0 ≤ d → d ≤ (s.deg : Int) → Topomesh.regions s d w 0 = .ok [w]) := by
  constructor
  · intro h0
    rw [Topomesh.borders, if_neg (by omega)]
    rfl
  · intro h0 hD
    rw [Topomesh.regions, if_neg (by omega)]
    rfl

/-- Witness for C10, on a degree-1 mesh holding no wisp with id `99`:
`borders(5, 99, 0)` (degree above `D`) and `regions(1, 99, 0)` both
answer `[99]`. -/
theorem claim10_witness :
    Topomesh.borders meshFree 5 99 0 = .ok [99] ∧
    Topomesh.regions meshFree 1 99 0 = .ok [99] :=
  ⟨(claim10_offset_zero_echoes_id meshFree 5 99).1 (by decide),
   (claim10_offset_zero_echoes_id meshFree 1 99).2 (by decide) (by decide)⟩

/-- Claim C8 (code bug): the store queries are supposed to fail with
`InvalidDegree` on every degree outside `[0, D]`, but Python's negative
list indexing makes degree `-1` on a degree-1 mesh silently wrap to the
degree-1 table: `has_wisp`, `wisps` and `nb_wisps` all answer as if the
degree were valid. -/
theorem claim8_negative_degree_answered :
    Topomesh.has_wisp meshDup (-1) 0 = .ok true ∧
    Topomesh.wisps meshDup (-1) = .ok [0] ∧
    Topomesh.nb_wisps meshDup (-1) = .ok 1 := by decide

/-- Claim C3 (code bug): `is_valid` is claimed to report whether the stored
relations satisfy the symmetry invariant, but the source returns the
constant `True`: on the state left behind by a failed `link` (border
sequence `[5]` with no matching region entry) it still answers `true`
although the invariant is violated. -/
theorem claim3_is_valid_constant_true :
    Topomesh.is_valid meshFreeLeak = true ∧ ¬ SymInv meshFreeLeak := by
  refine ⟨rfl, fun h => ?_⟩
  have h2 := h 1 (by omega) (by decide) 0 5
  revert h2
  decide

/-- Claim C1 (code bug): `meshDup` (edge 0 linked twice to vertex 0)
satisfies the symmetry invariant, `remove_wisp(0, 0)` completes
successfully, and the resulting state violates the invariant: the cascade
iterates over the deduplicated region set and removes only one of the two
matching occurrences, leaving the edge with a border entry for a deleted
vertex. -/
theorem claim1_remove_wisp_breaks_invariant :
    SymInv meshDup ∧
    Topomesh.remove_wisp meshDup 0 0 = .ok meshDupAfter ∧
    ¬ SymInv meshDupAfter := by
  refine ⟨symInv_of_check meshDup [0] (by decide) (by decide), by decide,
    fun h => ?_⟩
  have h2 := h 1 (by omega) (by decide) 0 0
  revert h2
  decide

/-- Claim C4 (code bug): after `remove_wisp(0, 0)` on `meshDup`,
`has_wisp(0, 0)` is `false` as claimed, but the remaining wisp `0` at
degree 1 still lists the removed wisp `0` once in its borders, violating
"no remaining wisp at degree d+1 lists w in its borders". -/
theorem claim4_remove_wisp_leaves_dangling_border :
    Topomesh.remove_wisp meshDup 0 0 = .ok meshDupAfter ∧
    Topomesh.has_wisp meshDupAfter 0 0 = .ok false ∧
    ((IdMap.get? (Topomesh.bmap meshDupAfter 1) 0).getD []).count 0 = 1 := by
  decide

/-- Claim C2 (counterexample): on `meshFree` (vertex 0, edge 0, no links),
`link(1, 0, 5)` fails because border id `5` does not exist at degree 0 —
yet `borders(1, 0)` has changed from `[]` to `[5]`: the first append is
not rolled back, refuting "when link(degree, wid, border_id) fails because
border_id does not exist at degree−1, borders(degree, wid) is
unchanged". -/
theorem claim2_link_not_atomic :
    Topomesh.link meshFree 1 0 5 = .error (.invalidWisp, meshFreeLeak) ∧
    IdMap.get? (Topomesh.rmap meshFree 0) 5 = none ∧
    IdMap.get? (Topomesh.bmap meshFree 1) 0 = some [] ∧
    IdMap.get? (Topomesh.bmap meshFreeLeak 1) 0 = some [5] := by decide

/-! ## Claims C5 and C6: unlink multiplicity and the link/unlink round trip -/

theorem erase_append_singleton_perm (l : List Nat) (a : Nat) :
    ((l ++ [a]).erase a).Perm l := by
  by_cases h : a ∈ l
  · rw [List.erase_append_left _ h]
    exact (List.perm_append_singleton _ _).trans
      (List.perm_cons_erase h).symm
  · rw [List.erase_append_right _ h, List.erase_cons_head]
    simp

/-- Claim C5: in a state where `borders(d, w)` holds `k ≥ 1` occurrences of
`b` and `regions(d-1, b)` holds the `k` matching occurrences of `w`
(duplicates permitted), `unlink(d, w, b)` succeeds and removes exactly one
occurrence from each sequence, leaving `k - 1`; and on a pair with no
matching occurrence (while both table entries exist), it fails with
`NotLinked` (the `ValueError` of `array.remove`). -/
theorem claim5_unlink_removes_exactly_one (s : Topomesh) (d : Int)
    (w b : Nat) (k : Nat) (m rm : IdMap) (bl rl : WList) (h1 : 1 ≤ d)
    (hb : s._borders.get? d.toNat = some (some m))
    (hbl : IdMap.get? m w = some bl)
    (hr : s._regions.get? (d - 1).toNat = some rm)
    (hrl : IdMap.get? rm b = some rl) :
    (1 ≤ k → bl.count b = k → rl.count w = k →
      ∃ s', Topomesh.unlink s d w b = .ok s' ∧
        ∃ m' rm', s'._borders.get? d.toNat = some (some m') ∧
          IdMap.get? m' w = some (bl.erase b) ∧
          (bl.erase b).count b = k - 1 ∧
          s'._regions.get? (d - 1).toNat = some rm' ∧
          IdMap.get? rm' b = some (rl.erase w) ∧
          (rl.erase w).count w = k - 1) ∧
    (bl.count b = 0 ∨ rl.count w = 0 →
      ∃ t, Topomesh.unlink s d w b = .error (.notLinked, t)) := by
  constructor
  · intro hk hcb hcw
    have hbin : b ∈ bl := by
      rw [← List.count_pos_iff_mem, hcb]; omega
    have hwin : w ∈ rl := by
      rw [← List.count_pos_iff_mem, hcw]; omega
    refine ⟨_, unlink_ok s d w b m rm bl rl h1 hb hbl hbin hr hrl hwin,
      IdMap.set m w (bl.erase b), IdMap.set rm b (rl.erase w), ?_, ?_, ?_,
      ?_, ?_, ?_⟩
    · rw [List.get?_set_eq, hb]; rfl
    · exact IdMap.get?_set_self _ _ _
    · rw [List.count_erase_self, hcb]
    · rw [List.get?_set_eq, hr]; rfl
    · exact IdMap.get?_set_self _ _ _
    · rw [List.count_erase_self, hcw]
  · intro hz
    have hd0 : (0 : Int) ≤ d := by omega
    have hpg1 : pyGet s._borders d = some (d.toNat, some m) :=
      pyGet_of_nonneg _ _ _ hd0 hb
    by_cases hbin : b ∈ bl
    · have hcw : rl.count w = 0 := by
        rcases hz with hz | hz
        · rw [List.count_eq_zero] at hz; exact absurd hbin hz
        · exact hz
      have hwin : w ∉ rl := List.count_eq_zero.mp hcw
      have hpg2 : pyGet s._regions (d - 1) = some ((d - 1).toNat, rm) :=
        pyGet_of_nonneg _ _ _ (by omega) hr
      refine ⟨Topomesh.setB s d.toNat (IdMap.set m w (bl.erase b)), ?_⟩
      simp only [Topomesh.unlink, if_neg (by omega : ¬d < 1), hpg1, hbl,
        removeFirst, if_pos hbin, Topomesh.setB, hpg2, hrl, if_neg hwin]
    · refine ⟨s, ?_⟩
      simp only [Topomesh.unlink, if_neg (by omega : ¬d < 1), hpg1, hbl,
        removeFirst, if_neg hbin]

/-- Witness for C5 on concrete meshes: on `meshDup` (two matching
occurrences, `k = 2`) unlink leaves one occurrence on each side; on
`meshFree` (no occurrence) unlink fails with `NotLinked`. -/
theorem claim5_witness :
    (∃ s', Topomesh.unlink meshDup 1 0 0 = .ok s' ∧
      ∃ m' rm', s'._borders.get? 1 = some (some m') ∧
        IdMap.get? m' 0 = some ([0, 0].erase 0) ∧
        ([0, 0].erase 0).count 0 = 1 ∧
        s'._regions.get? 0 = some rm' ∧
        IdMap.get? rm' 0 = some ([0, 0].erase 0) ∧
        ([0, 0].erase 0).count 0 = 1) ∧
    (∃ t, Topomesh.unlink meshFree 1 0 0 = .error (.notLinked, t)) :=
  ⟨(claim5_unlink_removes_exactly_one meshDup 1 0 0 2 [(0, [0, 0])]
      [(0, [0, 0])] [0, 0] [0, 0] (by decide) (by decide) (by decide)
      (by decide) (by decide)).1 (by decide) (by decide) (by decide),
   (claim5_unlink_removes_exactly_one meshFree 1 0 0 0 [(0, [])]
      [(0, [])] [] [] (by decide) (by decide) (by decide)
      (by decide) (by decide)).2 (Or.inl (by decide))⟩

/-- Claim C6: for existing wisps `w` at degree `d ≥ 1` and `b` at `d - 1`
(with their border/region table entries `bl` and `rl`), `link(d, w, b)`
followed by `unlink(d, w, b)` succeeds and restores `borders(d, w)` and
`regions(d-1, b)` to their pre-link multiset contents exactly (list
permutation of the original sequences). -/
theorem claim6_link_unlink_round_trip (s : Topomesh) (d : Int) (w b : Nat)
    (m rm : IdMap) (bl rl : WList) (h1 : 1 ≤ d)
    (hb : s._borders.get? d.toNat = some (some m))
    (hbl : IdMap.get? m w = some bl)
    (hr : s._regions.get? (d - 1).toNat = some rm)
    (hrl : IdMap.get? rm b = some rl) :
    ∃ s1 s2, Topomesh.link s d w b = .ok s1 ∧
      Topomesh.unlink s1 d w b = .ok s2 ∧
      ∃ m2 rm2, s2._borders.get? d.toNat = some (some m2) ∧
        s2._regions.get? (d - 1).toNat = some rm2 ∧
        ∃ bl2 rl2, IdMap.get? m2 w = some bl2 ∧
          IdMap.get? rm2 b = some rl2 ∧ bl2.Perm bl ∧ rl2.Perm rl := by
  have hlink := link_ok s d w b m rm bl rl h1 hb hbl hr hrl
  set s1 : Topomesh :=
    { deg := s.deg
      _borders := s._borders.set d.toNat (some (IdMap.set m w (bl ++ [b])))
      _regions :=
        s._regions.set (d - 1).toNat (IdMap.set rm b (rl ++ [w])) } with hs1
  have hb1 : s1._borders.get? d.toNat =
      some (some (IdMap.set m w (bl ++ [b]))) := by
    rw [hs1]
    show (s._borders.set d.toNat _).get? d.toNat = _
    rw [List.get?_set_eq, hb]
    rfl
  have hr1 : s1._regions.get? (d - 1).toNat =
      some (IdMap.set rm b (rl ++ [w])) := by
    rw [hs1]
    show (s._regions.set (d - 1).toNat _).get? (d - 1).toNat = _
    rw [List.get?_set_eq, hr]
    rfl
  have hunlink := unlink_ok s1 d w b _ _ (bl ++ [b]) (rl ++ [w]) h1 hb1
    (IdMap.get?_set_self _ _ _) (by simp) hr1 (IdMap.get?_set_self _ _ _)
    (by simp)
  refine ⟨s1, _, hlink, hunlink,
    IdMap.set (IdMap.set m w (bl ++ [b])) w ((bl ++ [b]).erase b),
    IdMap.set (IdMap.set rm b (rl ++ [w])) b ((rl ++ [w]).erase w), ?_, ?_,
    (bl ++ [b]).erase b, (rl ++ [w]).erase w,
    IdMap.get?_set_self _ _ _, IdMap.get?_set_self _ _ _,
    erase_append_singleton_perm bl b, erase_append_singleton_perm rl w⟩
  · show (s1._borders.set d.toNat _).get? d.toNat = _
    rw [List.get?_set_eq, hb1]
    rfl
  · show (s1._regions.set (d - 1).toNat _).get? (d - 1).toNat = _
    rw [List.get?_set_eq, hr1]
    rfl

/-- Witness for C6: on `meshFree`, linking and unlinking the
edge-0/vertex-0 pair restores both (empty) sequences up to
permutation. -/
theorem claim6_witness :
    ∃ s1 s2, Topomesh.link meshFree 1 0 0 = .ok s1 ∧
      Topomesh.unlink s1 1 0 0 = .ok s2 ∧
      ∃ m2 rm2, s2._borders.get? 1 = some (some m2) ∧
        s2._regions.get? 0 = some rm2 ∧
        ∃ bl2 rl2, IdMap.get? m2 0 = some bl2 ∧
          IdMap.get? rm2 0 = some rl2 ∧ bl2.Perm [] ∧ rl2.Perm [] :=
  claim6_link_unlink_round_trip meshFree 1 0 0 [(0, [])] [(0, [])] [] []
    (by decide) (by decide) (by decide) (by decide) (by decide)

/-! ## The traversal engine: offset-closure characterization -/

theorem bmapAt_eq (s : Topomesh) (i : Int) (m : IdMap) (h0 : 0 ≤ i)
    (h : s._borders.get? i.toNat = some (some m)) : bmapAt s i = m := by
  rw [bmapAt, pyGet_of_nonneg _ _ _ h0 h]

theorem rmapAt_eq (s : Topomesh) (i : Int) (m : IdMap) (h0 : 0 ≤ i)
    (h : s._regions.get? i.toNat = some m) : rmapAt s i = m := by
  rw [rmapAt, pyGet_of_nonneg _ _ _ h0 h]

theorem Topomesh.unionList_cons (acc : List Nat) (y : Nat) (l : List Nat) :
    Topomesh.unionList acc (y :: l) =
      Topomesh.unionList (if y ∈ acc then acc else acc ++ [y]) l := rfl

theorem mem_unionList (l acc : List Nat) (x : Nat) :
    x ∈ Topomesh.unionList acc l ↔ x ∈ acc ∨ x ∈ l := by
  induction l generalizing acc with
  | nil => simp [Topomesh.unionList]
  | cons y l ih =>
    rw [Topomesh.unionList_cons, ih]
    by_cases hy : y ∈ acc
    · rw [if_pos hy]
      simp only [List.mem_cons]
      constructor
      · rintro (h | h)
        · exact Or.inl h
        · exact Or.inr (Or.inr h)
      · rintro (h | h | h)
        · exact Or.inl h
        · exact Or.inl (h ▸ hy)
        · exact Or.inr h
    · rw [if_neg hy]
      simp only [List.mem_append, List.mem_singleton, List.mem_cons]
      tauto

theorem nodup_unionList (l acc : List Nat) (h : acc.Nodup) :
    (Topomesh.unionList acc l).Nodup := by
  induction l generalizing acc with
  | nil => exact h
  | cons y l ih =>
    rw [Topomesh.unionList_cons]
    by_cases hy : y ∈ acc
    · rw [if_pos hy]; exact ih _ h
    · rw [if_neg hy]
      exact ih _ (by simp [List.nodup_append, h, hy])

theorem setUnion_spec (iterF : Nat → Except MeshErr WList)
    (recF : WList → Except MeshErr WList) (P : Nat → Nat → Prop) :
    ∀ wids : List Nat,
      (∀ w ∈ wids, ∃ bl, iterF w = .ok bl ∧ ∃ sub, recF bl = .ok sub ∧
          ∀ x, x ∈ sub ↔ P w x) →
      ∀ acc, ∃ out, Topomesh.setUnion iterF recF acc wids = .ok out ∧
        (∀ x, x ∈ out ↔ x ∈ acc ∨ ∃ w ∈ wids, P w x) ∧
        (acc.Nodup → out.Nodup) := by
  intro wids
  induction wids with
  | nil =>
    intro _ acc
    exact ⟨acc, rfl, by simp, id⟩
  | cons w rest ih =>
    intro h acc
    obtain ⟨bl, hbl, sub, hsub, hmem⟩ := h w (List.mem_cons_self _ _)
    obtain ⟨out, hout, hcar, hnd⟩ :=
      ih (fun w' hw' => h w' (List.mem_cons_of_mem _ hw')) (Topomesh.unionList acc sub)
    refine ⟨out, ?_, ?_, ?_⟩
    · simp only [Topomesh.setUnion, hbl, hsub]
      exact hout
    · intro x
      rw [hcar x, mem_unionList, hmem x]
      simp only [List.mem_cons]
      constructor
      · rintro ((h1 | h1) | ⟨w', hw', h1⟩)
        · exact Or.inl h1
        · exact Or.inr ⟨w, Or.inl rfl, h1⟩
        · exact Or.inr ⟨w', Or.inr hw', h1⟩
      · rintro (h1 | ⟨w', hw' | hw', h1⟩)
        · exact Or.inl (Or.inl h1)
        · exact Or.inl (Or.inr (hw' ▸ h1))
        · exact Or.inr ⟨w', hw', h1⟩
    · intro hna
      exact hnd (nodup_unionList _ _ hna)

/-- Under the symmetry invariant, an id appearing in a stored border
sequence at degree `d ≥ 2` has a border-table entry at degree `d - 1`. -/
theorem borders_mem_next (s : Topomesh) (hWF : MeshWF s) (hInv : SymInv s)
    (d : Int) (hd2 : 2 ≤ d) (hdD : d ≤ (s.deg : Int)) (w b : Nat)
    (hb : b ∈ bordersSeq s d w) :
    (IdMap.get? (bmapAt s (d - 1)) b).isSome := by
  have hmb : s._borders.get? d.toNat = some (some (Topomesh.bmap s d.toNat)) :=
    hWF.borders_get d.toNat (by omega) (by omega)
  have hat : bmapAt s d = Topomesh.bmap s d.toNat :=
    bmapAt_eq s d _ (by omega) hmb
  have hcount := hInv d.toNat (by omega) (by omega) w b
  have hL : 0 < ((IdMap.get? (Topomesh.bmap s d.toNat) w).getD []).count b := by
    rw [List.count_pos_iff]
    rw [bordersSeq, hat] at hb
    exact hb
  rw [hcount] at hL
  have hrs : (IdMap.get? (Topomesh.rmap s (d.toNat - 1)) b).isSome := by
    rcases hg : IdMap.get? (Topomesh.rmap s (d.toNat - 1)) b with _ | v
    · rw [hg] at hL; simp at hL
    · rfl
  have hco := hWF.2.2.2.2
  have hbs := (hco (d.toNat - 1) (by omega) (by omega) b).mpr hrs
  have hmb' : s._borders.get? (d - 1).toNat =
      some (some (Topomesh.bmap s (d.toNat - 1))) := by
    have : (d - 1).toNat = d.toNat - 1 := by omega
    rw [this]
    exact hWF.borders_get (d.toNat - 1) (by omega) (by omega)
  rw [bmapAt_eq s (d - 1) _ (by omega) hmb']
  exact hbs

/-- Source `_borders_with_offset` under the invariant: it succeeds and returns
exactly the ids reachable in `off` border steps from the input ids
(duplicate-free for `off ≥ 1`). -/
theorem bordersWithOffset_spec (s : Topomesh) (hWF : MeshWF s)
    (hInv : SymInv s) :
    ∀ (off : Nat) (deg : Int) (wids : List Nat), (off : Int) ≤ deg →
      deg ≤ (s.deg : Int) →
      (1 ≤ off → ∀ w ∈ wids, (IdMap.get? (bmapAt s deg) w).isSome) →
      ∃ out, Topomesh.bordersWithOffset s off deg wids = .ok out ∧
        (∀ x, x ∈ out ↔ ∃ w ∈ wids, ReachB s off deg w x) ∧
        (1 ≤ off → out.Nodup) := by
  intro off
  induction off with
  | zero =>
    intro deg wids _ _ _
    refine ⟨wids, rfl, ?_, fun h => absurd h (by omega)⟩
    intro x
    simp only [ReachB]
    constructor
    · intro h; exact ⟨x, h, rfl⟩
    · rintro ⟨w, hw, rfl⟩; exact hw
  | succ off ih =>
    intro deg wids hod hD hkeys
    have hkeys' := hkeys (by omega)
    have hsu := setUnion_spec (Topomesh.iterBorders s deg)
      (fun l => Topomesh.bordersWithOffset s off (deg - 1) l)
      (fun w x => ∃ b ∈ bordersSeq s deg w, ReachB s off (deg - 1) b x)
      wids ?_ []
    · obtain ⟨out, hout, hcar, hnd⟩ := hsu
      refine ⟨out, ?_, ?_, fun _ => hnd List.nodup_nil⟩
      · rw [Topomesh.bordersWithOffset]
        exact hout
      · intro x
        rw [hcar x]
        simp only [List.not_mem_nil, false_or]
        rfl
    · -- each input id has a border sequence and the recursion succeeds
      intro w hw
      have hsome := hkeys' w hw
      rcases hg : IdMap.get? (bmapAt s deg) w with _ | bl
      · rw [hg] at hsome; cases hsome
      · have hmb : s._borders.get? deg.toNat =
            some (some (Topomesh.bmap s deg.toNat)) :=
          hWF.borders_get deg.toNat (by omega) (by omega)
        have hat : bmapAt s deg = Topomesh.bmap s deg.toNat :=
          bmapAt_eq s deg _ (by omega) hmb
        have hpg : pyGet s._borders deg =
            some (deg.toNat, some (Topomesh.bmap s deg.toNat)) :=
          pyGet_of_nonneg _ _ _ (by omega) hmb
        have hg' : IdMap.get? (Topomesh.bmap s deg.toNat) w = some bl := by
          rw [← hat]; exact hg
        have hiter : Topomesh.iterBorders s deg w = .ok bl := by
          simp only [Topomesh.iterBorders, hpg, hg']
        refine ⟨bl, hiter, ?_⟩
        have hseq : bordersSeq s deg w = bl := by
          rw [bordersSeq, hg]; rfl
        have hrec := ih (deg - 1) bl (by omega) (by omega) ?_
        · obtain ⟨sub, hsub, hsubcar, -⟩ := hrec
          refine ⟨sub, hsub, ?_⟩
          intro x
          show x ∈ sub ↔ ∃ b ∈ bordersSeq s deg w, ReachB s off (deg - 1) b x
          rw [hseq]
          exact hsubcar x
        · intro hoff b hbbl
          refine borders_mem_next s hWF hInv deg (by omega) hD w b ?_
          rw [bordersSeq, hg]
          exact hbbl

/-- Claim C7: for every existing wisp `w` at degree `d`, every `k ≥ 0` with
`d - (k+1) ≥ 0` (in a well-formed state satisfying the symmetry
invariant), `borders(d, w, k+1)` succeeds, every direct border `b` of `w`
admits a successful `borders(d-1, b, k)`, and the set returned by
`borders(d, w, k+1)` equals the union over the direct borders `b` of the
sets `borders(d-1, b, k)`. -/
theorem claim7_offset_closure_composition (s : Topomesh) (hWF : MeshWF s)
    (hInv : SymInv s) (d : Int) (w : Nat) (k : Nat)
    (hk : (k : Int) + 1 ≤ d) (hD : d ≤ (s.deg : Int))
    (hw : (IdMap.get? (bmapAt s d) w).isSome) :
    ∃ out, Topomesh.borders s d w (k + 1) = .ok out ∧
      (∀ b ∈ bordersSeq s d w,
          ∃ outb, Topomesh.borders s (d - 1) b k = .ok outb) ∧
      ∀ x, x ∈ out ↔ ∃ b ∈ bordersSeq s d w,
          ∃ outb, Topomesh.borders s (d - 1) b k = .ok outb ∧ x ∈ outb := by
  have hsub : ∀ b ∈ bordersSeq s d w,
      ∃ outb, Topomesh.borders s (d - 1) b k = .ok outb ∧
        ∀ x, x ∈ outb ↔ ReachB s k (d - 1) b x := by
    intro b hb
    obtain ⟨outb, houtb, hcarb, -⟩ :=
      bordersWithOffset_spec s hWF hInv k (d - 1) [b] (by omega) (by omega)
        (fun hk1 b' hb' => by
          rw [List.mem_singleton.mp hb']
          exact borders_mem_next s hWF hInv d (by omega) hD w b hb)
    refine ⟨outb, ?_, ?_⟩
    · rw [Topomesh.borders, if_neg (by omega)]
      exact houtb
    · intro x
      rw [hcarb x]
      constructor
      · rintro ⟨b', hb', hr⟩
        rw [List.mem_singleton.mp hb'] at hr
        exact hr
      · intro hr
        exact ⟨b, List.mem_singleton_self b, hr⟩
  obtain ⟨out, hout, hcar, -⟩ :=
    bordersWithOffset_spec s hWF hInv (k + 1) d [w] (by push_cast; omega) hD
      (fun _ w' hw' => by rw [List.mem_singleton.mp hw']; exact hw)
  refine ⟨out, ?_, ?_, ?_⟩
  · rw [Topomesh.borders, if_neg (by omega)]
    exact hout
  · intro b hb
    obtain ⟨outb, h1, -⟩ := hsub b hb
    exact ⟨outb, h1⟩
  · intro x
    rw [hcar x]
    constructor
    · rintro ⟨w', hw', hreach⟩
      rw [List.mem_singleton.mp hw'] at hreach
      obtain ⟨b, hb, hr⟩ := hreach
      obtain ⟨outb, heq, hcarb⟩ := hsub b hb
      exact ⟨b, hb, outb, heq, (hcarb x).mpr hr⟩
    · rintro ⟨b, hb, outb', heq', hx⟩
      obtain ⟨outb, heq, hcarb⟩ := hsub b hb
      rw [heq] at heq'
      cases heq'
      refine ⟨w, List.mem_singleton_self w, ?_⟩
      show ∃ b ∈ bordersSeq s d w, ReachB s k (d - 1) b x
      exact ⟨b, hb, (hcarb x).mp hx⟩

/-- Witness for C7 on `meshDup` with `d = 1`, `k = 0`. -/
theorem claim7_witness :
    ∃ out, Topomesh.borders meshDup 1 0 1 = .ok out ∧
      (∀ b ∈ bordersSeq meshDup 1 0,
          ∃ outb, Topomesh.borders meshDup 0 b 0 = .ok outb) ∧
      ∀ x, x ∈ out ↔ ∃ b ∈ bordersSeq meshDup 1 0,
          ∃ outb, Topomesh.borders meshDup 0 b 0 = .ok outb ∧ x ∈ outb :=
  claim7_offset_closure_composition meshDup (wf_of_check _ (by decide))
    (symInv_of_check meshDup [0] (by decide) (by decide)) 1 0 0 (by decide)
    (by decide) (by decide)

/-! ## Border neighbors -/

/-- Under the invariant, an id in a stored border sequence at degree
`d ≥ 1` has a region-table entry at `d - 1` containing the wisp. -/
theorem region_entry_of_border_mem (s : Topomesh) (hWF : MeshWF s)
    (hInv : SymInv s) (d : Int) (hd1 : 1 ≤ d) (hdD : d ≤ (s.deg : Int))
    (w b : Nat) (hb : b ∈ bordersSeq s d w) :
    ∃ rl, IdMap.get? (rmapAt s (d - 1)) b = some rl ∧ w ∈ rl := by
  have hmb : s._borders.get? d.toNat = some (some (Topomesh.bmap s d.toNat)) :=
    hWF.borders_get d.toNat (by omega) (by omega)
  have hat : bmapAt s d = Topomesh.bmap s d.toNat :=
    bmapAt_eq s d _ (by omega) hmb
  have hcount := hInv d.toNat (by omega) (by omega) w b
  have hL : 0 < ((IdMap.get? (Topomesh.bmap s d.toNat) w).getD []).count b := by
    rw [List.count_pos_iff]
    rw [bordersSeq, hat] at hb
    exact hb
  rw [hcount] at hL
  have hmr : s._regions.get? (d - 1).toNat =
      some (Topomesh.rmap s (d.toNat - 1)) := by
    have h' : (d - 1).toNat = d.toNat - 1 := by omega
    rw [h']
    exact hWF.regions_get (d.toNat - 1) (by omega)
  have hatr : rmapAt s (d - 1) = Topomesh.rmap s (d.toNat - 1) :=
    rmapAt_eq s (d - 1) _ (by omega) hmr
  rcases hg : IdMap.get? (Topomesh.rmap s (d.toNat - 1)) b with _ | rl
  · rw [hg] at hL; simp at hL
  · rw [hg] at hL
    refine ⟨rl, ?_, ?_⟩
    · rw [hatr]; exact hg
    · exact List.count_pos_iff.mp (by simpa using hL)

/-- Evaluation: `regions(d', b, 1)` succeeds and returns the duplicate-free element
set of the stored region sequence of `b`. -/
theorem regions_one (s : Topomesh) (hWF : MeshWF s) (d' : Int) (b : Nat)
    (h0 : 0 ≤ d') (hD : d' + 1 ≤ (s.deg : Int))
    (hsome : (IdMap.get? (rmapAt s d') b).isSome) :
    ∃ rs, Topomesh.regions s d' b 1 = .ok rs ∧ rs.Nodup ∧
      ∀ x, x ∈ rs ↔ x ∈ regionsSeq s d' b := by
  rcases hg : IdMap.get? (rmapAt s d') b with _ | rl
  · rw [hg] at hsome; cases hsome
  · have hmr : s._regions.get? d'.toNat = some (Topomesh.rmap s d'.toNat) :=
      hWF.regions_get d'.toNat (by omega)
    have hatr : rmapAt s d' = Topomesh.rmap s d'.toNat :=
      rmapAt_eq s d' _ h0 hmr
    have hpg : pyGet s._regions d' =
        some (d'.toNat, Topomesh.rmap s d'.toNat) :=
      pyGet_of_nonneg _ _ _ h0 hmr
    have hg' : IdMap.get? (Topomesh.rmap s d'.toNat) b = some rl := by
      rw [← hatr]; exact hg
    have hiter : Topomesh.iterRegions s d' b = .ok rl := by
      simp only [Topomesh.iterRegions, hpg, hg']
    obtain ⟨out, hout, hcar, hnd⟩ := setUnion_spec (Topomesh.iterRegions s d')
      (fun l => Topomesh.regionsWithOffset s 0 (d' + 1) l)
      (fun b' x => x ∈ regionsSeq s d' b') [b]
      (fun b' hb' => by
        rw [List.mem_singleton.mp hb']
        refine ⟨rl, hiter, rl, rfl, ?_⟩
        intro x
        show x ∈ rl ↔ x ∈ regionsSeq s d' b
        rw [regionsSeq, hg]
        exact Iff.rfl) []
    refine ⟨out, ?_, hnd List.nodup_nil, ?_⟩
    · rw [Topomesh.regions, if_neg (by omega)]
      rw [Topomesh.regionsWithOffset]
      exact hout
    · intro x
      rw [hcar x]
      constructor
      · rintro (h | ⟨b', hb', h⟩)
        · cases h
        · rw [List.mem_singleton.mp hb'] at h
          exact h
      · intro h
        exact Or.inr ⟨b, List.mem_singleton_self b, h⟩

/-- The inner loop of `border_neighbors`: the number of times each id is
yielded. -/
theorem bnAux_spec (s : Topomesh) (d : Int) (wid : Nat) :
    ∀ bs : List Nat,
      (∀ b ∈ bs, ∃ rs, Topomesh.regions s (d - 1) b 1 = .ok rs ∧ rs.Nodup ∧
          ∀ x, x ∈ rs ↔ x ∈ regionsSeq s (d - 1) b) →
      ∃ out, Topomesh.bnAux s d wid bs = .ok out ∧
        ∀ x, out.count x = if x = wid then 0
          else bs.countP (fun b => decide (x ∈ regionsSeq s (d - 1) b)) := by
  intro bs
  induction bs with
  | nil =>
    intro _
    refine ⟨[], rfl, ?_⟩
    intro x
    simp
  | cons b rest ih =>
    intro h
    obtain ⟨rs, hrs, hnd, hmem⟩ := h b (List.mem_cons_self _ _)
    obtain ⟨out, hout, hcount⟩ :=
      ih (fun b' hb' => h b' (List.mem_cons_of_mem _ hb'))
    refine ⟨rs.filter (fun r => r ≠ wid) ++ out, ?_, ?_⟩
    · simp only [Topomesh.bnAux, hrs, hout]
    · intro x
      rw [List.count_append, hcount x, List.countP_cons]
      by_cases hx : x = wid
      · subst hx
        simp [List.count_eq_zero_of_not_mem]
      · rw [if_neg hx, if_neg hx]
        have hfil : (rs.filter (fun r => r ≠ wid)).count x = rs.count x := by
          refine List.count_filter ?_
          simp [hx]
        rw [hfil]
        by_cases hxr : x ∈ regionsSeq s (d - 1) b
        · rw [if_pos (by simpa using hxr)]
          have : rs.count x = 1 :=
            List.count_eq_one_of_mem hnd ((hmem x).mpr hxr)
          omega
        · rw [if_neg (by simpa using hxr)]
          have : rs.count x = 0 :=
            List.count_eq_zero_of_not_mem (fun hc => hxr ((hmem x).mp hc))
          omega

/-- Claim C9: for a wisp `w` at degree `d ≥ 1` (well-formed invariant
state), `border_neighbors(d, w)` succeeds; the borders it iterates are the
distinct direct borders of `w` (`bs`, duplicate-free); `w` itself is never
yielded; and every other id `x` is yielded exactly once per distinct
border `b` of `w` whose stored region sequence contains `x` — so a
neighbor shared through `m` distinct borders appears `m` times, not
deduplicated. -/
theorem claim9_border_neighbors_multiplicity (s : Topomesh)
    (hWF : MeshWF s) (hInv : SymInv s) (d : Int) (w : Nat) (h1 : 1 ≤ d)
    (hD : d ≤ (s.deg : Int))
    (hw : (IdMap.get? (bmapAt s d) w).isSome) :
    ∃ bs out, Topomesh.borders s d w 1 = .ok bs ∧
      Topomesh.border_neighbors s d w = .ok out ∧
      bs.Nodup ∧ (∀ b, b ∈ bs ↔ b ∈ bordersSeq s d w) ∧
      out.count w = 0 ∧
      ∀ x, x ≠ w →
        out.count x = bs.countP
          (fun b => decide (x ∈ regionsSeq s (d - 1) b)) := by
  obtain ⟨bs, hbs, hbscar, hbsnd⟩ :=
    bordersWithOffset_spec s hWF hInv 1 d [w] (by omega) hD
      (fun _ w' hw' => by rw [List.mem_singleton.mp hw']; exact hw)
  have hbs' : Topomesh.borders s d w 1 = .ok bs := by
    rw [Topomesh.borders, if_neg (by omega)]
    exact hbs
  have hbsmem : ∀ b, b ∈ bs ↔ b ∈ bordersSeq s d w := by
    intro b
    rw [hbscar b]
    constructor
    · rintro ⟨w', hw', hr⟩
      rw [List.mem_singleton.mp hw'] at hr
      obtain ⟨b', hb', hr'⟩ := hr
      rw [show b = b' from hr'] at *
      exact hb'
    · intro hb
      exact ⟨w, List.mem_singleton_self w, b, hb, rfl⟩
  obtain ⟨out, hout, hcount⟩ := bnAux_spec s d w bs (fun b hb => by
    obtain ⟨rl, hrl, -⟩ := region_entry_of_border_mem s hWF hInv d h1 hD w b
      ((hbsmem b).mp hb)
    exact regions_one s hWF (d - 1) b (by omega) (by omega)
      (by rw [hrl]; rfl))
  refine ⟨bs, out, hbs', ?_, hbsnd (by omega), hbsmem, ?_, ?_⟩
  · rw [Topomesh.border_neighbors, hbs']
    exact hout
  · rw [hcount w, if_pos rfl]
  · intro x hx
    rw [hcount x, if_neg hx]

/-- Witness for C9 on `meshTwoEdges` (edges 0 and 1 sharing vertex 0):
`border_neighbors(1, 0)` is computed and characterized. -/
theorem claim9_witness :
    ∃ bs out, Topomesh.borders meshTwoEdges 1 0 1 = .ok bs ∧
      Topomesh.border_neighbors meshTwoEdges 1 0 = .ok out ∧
      bs.Nodup ∧ (∀ b, b ∈ bs ↔ b ∈ bordersSeq meshTwoEdges 1 0) ∧
      out.count 0 = 0 ∧
      ∀ x, x ≠ 0 →
        out.count x = bs.countP
          (fun b => decide (x ∈ regionsSeq meshTwoEdges 0 b)) :=
  claim9_border_neighbors_multiplicity meshTwoEdges
    (wf_of_check _ (by decide))
    (symInv_of_check meshTwoEdges [0, 1] (by decide) (by decide)) 1 0
    (by decide) (by decide) (by decide)

/-! ## Preservation of well-formedness and the invariant by unlink -/

theorem IdMap.get?_set_isSome (m : IdMap) (w w' : Nat) (v bl : WList)
    (hbl : IdMap.get? m w = some bl) :
    (IdMap.get? (IdMap.set m w v) w').isSome = (IdMap.get? m w').isSome := by
  by_cases h : w' = w
  · subst h
    rw [IdMap.get?_set_self, hbl]
    rfl
  · rw [IdMap.get?_set_ne _ _ _ _ h]


theorem unlink_preserves (s : Topomesh) (hWF : MeshWF s) (hInv : SymInv s)
    (d : Int) (w b : Nat) (m rm : IdMap) (bl rl : WList) (h1 : 1 ≤ d)
    (hdD : d ≤ (s.deg : Int))
    (hb : s._borders.get? d.toNat = some (some m))
    (hbl : IdMap.get? m w = some bl) (hbin : b ∈ bl)
    (hr : s._regions.get? (d - 1).toNat = some rm)
    (hrl : IdMap.get? rm b = some rl) (hwin : w ∈ rl) :
    MeshWF
      { deg := s.deg
        _borders := s._borders.set d.toNat (some (IdMap.set m w (bl.erase b)))
        _regions :=
          s._regions.set (d - 1).toNat (IdMap.set rm b (rl.erase w)) } ∧
    SymInv
      { deg := s.deg
        _borders := s._borders.set d.toNat (some (IdMap.set m w (bl.erase b)))
        _regions :=
          s._regions.set (d - 1).toNat (IdMap.set rm b (rl.erase w)) } := by
  obtain ⟨hlen1, hlen2, h0, hex, hco⟩ := hWF
  have hm : m = Topomesh.bmap s d.toNat := by
    rw [Topomesh.bmap, hb]
  have hrm : rm = Topomesh.rmap s (d.toNat - 1) := by
    have h' : (d - 1).toNat = d.toNat - 1 := by omega
    rw [h'] at hr
    rw [Topomesh.rmap, hr]
    rfl
  have hidx : (d - 1).toNat = d.toNat - 1 := by omega
  have hd1 : 1 ≤ d.toNat := by omega
  -- table lookups in the new state
  have hBAt : ∀ δ : Nat, δ ≠ d.toNat →
      (s._borders.set d.toNat (some (IdMap.set m w (bl.erase b)))).get? δ =
        s._borders.get? δ :=
    fun δ hδ => List.get?_set_ne _ _ (fun h => hδ h.symm)
  have hBEq :
      (s._borders.set d.toNat (some (IdMap.set m w (bl.erase b)))).get?
        d.toNat = some (some (IdMap.set m w (bl.erase b))) := by
    rw [List.get?_set_eq, hb]
    rfl
  have hRAt : ∀ δ : Nat, δ ≠ (d - 1).toNat →
      (s._regions.set (d - 1).toNat (IdMap.set rm b (rl.erase w))).get? δ =
        s._regions.get? δ :=
    fun δ hδ => List.get?_set_ne _ _ (fun h => hδ h.symm)
  have hREq :
      (s._regions.set (d - 1).toNat (IdMap.set rm b (rl.erase w))).get?
        (d - 1).toNat = some (IdMap.set rm b (rl.erase w)) := by
    rw [List.get?_set_eq, hr]
    rfl
  constructor
  · refine ⟨by simpa using hlen1, by simpa using hlen2, ?_, ?_, ?_⟩
    · show (s._borders.set d.toNat _).get? 0 = some none
      rw [hBAt 0 (by omega)]
      exact h0
    · intro δ hδ1 hδ2
      show ∃ mm, (s._borders.set d.toNat _).get? δ = some (some mm)
      by_cases hδ : δ = d.toNat
      · subst hδ
        exact ⟨_, hBEq⟩
      · rw [hBAt δ hδ]
        exact hex δ hδ1 hδ2
    · intro δ hδ1 hδ2 w'
      show (IdMap.get? (Topomesh.bmap _ δ) w').isSome ↔
        (IdMap.get? (Topomesh.rmap _ δ) w').isSome
      have hbside : Topomesh.bmap
          { deg := s.deg
            _borders :=
              s._borders.set d.toNat (some (IdMap.set m w (bl.erase b)))
            _regions :=
              s._regions.set (d - 1).toNat (IdMap.set rm b (rl.erase w)) }
            δ = if δ = d.toNat then IdMap.set m w (bl.erase b)
              else Topomesh.bmap s δ := by
        by_cases hδ : δ = d.toNat
        · subst hδ
          rw [if_pos rfl, Topomesh.bmap, hBEq]
        · rw [if_neg hδ, Topomesh.bmap, Topomesh.bmap, hBAt δ hδ]
      have hrside : Topomesh.rmap
          { deg := s.deg
            _borders :=
              s._borders.set d.toNat (some (IdMap.set m w (bl.erase b)))
            _regions :=
              s._regions.set (d - 1).toNat (IdMap.set rm b (rl.erase w)) }
            δ = if δ = (d - 1).toNat then IdMap.set rm b (rl.erase w)
              else Topomesh.rmap s δ := by
        by_cases hδ : δ = (d - 1).toNat
        · subst hδ
          rw [if_pos rfl, Topomesh.rmap, hREq]
          rfl
        · rw [if_neg hδ, Topomesh.rmap, Topomesh.rmap, hRAt δ hδ]
      rw [hbside, hrside]
      by_cases hδ : δ = d.toNat
      · rw [if_pos hδ, if_neg (by omega)]
        rw [IdMap.get?_set_isSome m w w' _ bl hbl, hm, ← hδ]
        exact hco δ hδ1 hδ2 w'
      · rw [if_neg hδ]
        by_cases hδ' : δ = (d - 1).toNat
        · rw [if_pos hδ']
          rw [IdMap.get?_set_isSome rm b w' _ rl hrl, hrm]
          have hδ2' : δ = d.toNat - 1 := hδ'.trans hidx
          rw [← hδ2']
          exact hco δ hδ1 hδ2 w'
        · rw [if_neg hδ']
          exact hco δ hδ1 hδ2 w'
  · intro δ hδ1 hδ2 w' b'
    have hold := hInv δ hδ1 hδ2 w' b'
    have hbm2 : Topomesh.bmap
        { deg := s.deg
          _borders :=
            s._borders.set d.toNat (some (IdMap.set m w (bl.erase b)))
          _regions :=
            s._regions.set (d - 1).toNat (IdMap.set rm b (rl.erase w)) } δ =
        if δ = d.toNat then IdMap.set m w (bl.erase b)
        else Topomesh.bmap s δ := by
      by_cases hδ : δ = d.toNat
      · subst hδ
        rw [if_pos rfl, Topomesh.bmap, hBEq]
      · rw [if_neg hδ, Topomesh.bmap, Topomesh.bmap, hBAt δ hδ]
    have hrm2 : Topomesh.rmap
        { deg := s.deg
          _borders :=
            s._borders.set d.toNat (some (IdMap.set m w (bl.erase b)))
          _regions :=
            s._regions.set (d - 1).toNat (IdMap.set rm b (rl.erase w)) }
          (δ - 1) =
        if δ - 1 = (d - 1).toNat then IdMap.set rm b (rl.erase w)
        else Topomesh.rmap s (δ - 1) := by
      by_cases hδ : δ - 1 = (d - 1).toNat
      · rw [if_pos hδ, Topomesh.rmap, hδ, hREq]
        rfl
      · rw [if_neg hδ, Topomesh.rmap, Topomesh.rmap, hRAt _ hδ]
    show List.count b' ((IdMap.get? (Topomesh.bmap _ δ) w').getD []) =
      List.count w' ((IdMap.get? (Topomesh.rmap _ (δ - 1)) b').getD [])
    rw [hbm2, hrm2]
    by_cases hδ : δ = d.toNat
    · rw [if_pos hδ, if_pos (by omega)]
      have holdm : List.count b' ((IdMap.get? m w').getD []) =
          List.count w' ((IdMap.get? rm b').getD []) := by
        rw [hm, hrm]
        exact hInv d.toNat (by omega) (by omega) w' b'
      by_cases hw' : w' = w
      · subst hw'
        rw [IdMap.get?_set_self]
        by_cases hb' : b' = b
        · subst hb'
          rw [IdMap.get?_set_self]
          rw [hbl, hrl] at holdm
          simp only [Option.getD_some] at holdm ⊢
          rw [List.count_erase_self, List.count_erase_self, holdm]
        · rw [IdMap.get?_set_ne _ _ _ _ hb']
          rw [hbl] at holdm
          simp only [Option.getD_some] at holdm ⊢
          rw [List.count_erase_of_ne hb' bl, holdm]
      · rw [IdMap.get?_set_ne _ _ _ _ hw']
        by_cases hb' : b' = b
        · subst hb'
          rw [IdMap.get?_set_self]
          rw [hrl] at holdm
          simp only [Option.getD_some] at holdm ⊢
          rw [List.count_erase_of_ne hw' rl, holdm]
        · rw [IdMap.get?_set_ne _ _ _ _ hb']
          exact holdm
    · rw [if_neg hδ, if_neg (by omega)]
      exact hold

/-! ## The remove_wisp cascade loops never fail on invariant states -/

theorem unlinkRegionsLoop_ok (d : Int) (w : Nat) (hd0 : 0 ≤ d) :
    ∀ (rids : List Nat) (s : Topomesh), MeshWF s → SymInv s →
      d < (s.deg : Int) → rids.Nodup →
      (∃ rl, IdMap.get? (rmapAt s d) w = some rl ∧ ∀ rid ∈ rids, rid ∈ rl) →
      ∃ s', Topomesh.unlinkRegionsLoop d w s rids = .ok s' ∧
        MeshWF s' ∧ SymInv s' ∧ s'.deg = s.deg ∧
        (∀ j : Nat, j ≠ (d + 1).toNat →
          s'._borders.get? j = s._borders.get? j) ∧
        (∀ j : Nat, j ≠ d.toNat → s'._regions.get? j = s._regions.get? j) ∧
        ∃ rl', IdMap.get? (rmapAt s' d) w = some rl' := by
  intro rids
  induction rids with
  | nil =>
    rintro s hWF hInv hdD hnd ⟨rl, hrl, -⟩
    exact ⟨s, rfl, hWF, hInv, rfl, fun _ _ => rfl, fun _ _ => rfl, rl, hrl⟩
  | cons rid rest ih =>
    rintro s hWF hInv hdD hnd ⟨rl, hrl, hmem⟩
    have hlen2 : s._regions.length = max s.deg 1 := hWF.2.1
    have hmr : s._regions.get? d.toNat = some (Topomesh.rmap s d.toNat) :=
      hWF.regions_get d.toNat (by omega)
    have hrAt : rmapAt s d = Topomesh.rmap s d.toNat :=
      rmapAt_eq s d _ hd0 hmr
    have hrl' : IdMap.get? (Topomesh.rmap s d.toNat) w = some rl := by
      rw [← hrAt]; exact hrl
    have hridrl : rid ∈ rl := hmem rid (List.mem_cons_self _ _)
    -- the border table entry of rid at degree d+1, via the invariant
    have hmb : s._borders.get? (d + 1).toNat =
        some (some (Topomesh.bmap s (d + 1).toNat)) :=
      hWF.borders_get (d + 1).toNat (by omega) (by omega)
    have hidx1 : (d + 1).toNat = d.toNat + 1 := by omega
    have hcnt := hInv (d.toNat + 1) (by omega) (by omega) rid w
    have hR : 0 <
        ((IdMap.get? (Topomesh.rmap s (d.toNat + 1 - 1)) w).getD []).count
          rid := by
      have h' : d.toNat + 1 - 1 = d.toNat := by omega
      rw [h', hrl']
      simp only [Option.getD_some]
      exact List.count_pos_iff.mpr hridrl
    rw [← hcnt] at hR
    rcases hgb : IdMap.get? (Topomesh.bmap s (d.toNat + 1)) rid with _ | bseq
    · rw [hgb] at hR; simp at hR
    · rw [hgb] at hR
      simp only [Option.getD_some] at hR
      have hwb : w ∈ bseq := List.count_pos_iff.mp hR
      have hmb' : s._borders.get? (d + 1).toNat =
          some (some (Topomesh.bmap s (d.toNat + 1))) := by
        rw [hidx1] at hmb ⊢
        exact hmb
      have hmr' : s._regions.get? (d + 1 - 1).toNat =
          some (Topomesh.rmap s d.toNat) := by
        have h' : (d + 1 - 1).toNat = d.toNat := by omega
        rw [h']
        exact hmr
      have hok := unlink_ok s (d + 1) rid w _ _ bseq rl (by omega) hmb'
        hgb hwb hmr' hrl' hridrl
      have hpres := unlink_preserves s hWF hInv (d + 1) rid w _ _ bseq rl
        (by omega) (by omega) hmb' hgb hwb hmr' hrl' hridrl
      set s1 : Topomesh :=
        { deg := s.deg
          _borders := s._borders.set (d + 1).toNat
            (some (IdMap.set (Topomesh.bmap s (d.toNat + 1)) rid
              (bseq.erase w)))
          _regions := s._regions.set (d + 1 - 1).toNat
            (IdMap.set (Topomesh.rmap s d.toNat) w (rl.erase rid)) } with hs1
      have hidx0 : (d + 1 - 1).toNat = d.toNat := by omega
      have hs1r : s1._regions.get? d.toNat =
          some (IdMap.set (Topomesh.rmap s d.toNat) w (rl.erase rid)) := by
        rw [hs1]
        show (s._regions.set (d + 1 - 1).toNat _).get? d.toNat = _
        rw [hidx0, List.get?_set_eq, hmr]
        rfl
      have hs1rAt : rmapAt s1 d =
          IdMap.set (Topomesh.rmap s d.toNat) w (rl.erase rid) :=
        rmapAt_eq s1 d _ hd0 hs1r
      obtain ⟨s', hloop, hWF', hInv', hdeg', hB', hR', hrl''⟩ :=
        ih s1 hpres.1 hpres.2 (by rw [hs1]; exact hdD)
          (List.nodup_cons.mp hnd).2
          ⟨rl.erase rid, by rw [hs1rAt]; exact IdMap.get?_set_self _ _ _,
            fun rid' hrid' => by
              have hne : rid' ≠ rid := fun h =>
                (List.nodup_cons.mp hnd).1 (h ▸ hrid')
              exact (List.mem_erase_of_ne hne).mpr
                (hmem rid' (List.mem_cons_of_mem _ hrid'))⟩
      refine ⟨s', ?_, hWF', hInv', by rw [hdeg', hs1], ?_, ?_, hrl''⟩
      · rw [Topomesh.unlinkRegionsLoop, hok]
        exact hloop
      · intro j hj
        rw [hB' j hj, hs1]
        show (s._borders.set (d + 1).toNat _).get? j = _
        rw [List.get?_set_ne _ _ (fun h => hj h.symm)]
      · intro j hj
        rw [hR' j hj, hs1]
        show (s._regions.set (d + 1 - 1).toNat _).get? j = _
        rw [hidx0, List.get?_set_ne _ _ (fun h => hj h.symm)]

theorem unlinkBordersLoop_ok (d : Int) (w : Nat) (hd1 : 1 ≤ d) :
    ∀ (bids : List Nat) (s : Topomesh), MeshWF s → SymInv s →
      d ≤ (s.deg : Int) → bids.Nodup →
      (∃ bl, IdMap.get? (bmapAt s d) w = some bl ∧ ∀ bid ∈ bids, bid ∈ bl) →
      ∃ s', Topomesh.unlinkBordersLoop d w s bids = .ok s' ∧
        MeshWF s' ∧ SymInv s' ∧ s'.deg = s.deg ∧
        (∀ j : Nat, j ≠ d.toNat → s'._borders.get? j = s._borders.get? j) ∧
        (∀ j : Nat, j ≠ (d - 1).toNat →
          s'._regions.get? j = s._regions.get? j) ∧
        ∃ bl', IdMap.get? (bmapAt s' d) w = some bl' := by
  intro bids
  induction bids with
  | nil =>
    rintro s hWF hInv hdD hnd ⟨bl, hbl, -⟩
    exact ⟨s, rfl, hWF, hInv, rfl, fun _ _ => rfl, fun _ _ => rfl, bl, hbl⟩
  | cons bid rest ih =>
    rintro s hWF hInv hdD hnd ⟨bl, hbl, hmem⟩
    have hmb : s._borders.get? d.toNat =
        some (some (Topomesh.bmap s d.toNat)) :=
      hWF.borders_get d.toNat (by omega) (by omega)
    have hbAt : bmapAt s d = Topomesh.bmap s d.toNat :=
      bmapAt_eq s d _ (by omega) hmb
    have hbl' : IdMap.get? (Topomesh.bmap s d.toNat) w = some bl := by
      rw [← hbAt]; exact hbl
    have hbidbl : bid ∈ bl := hmem bid (List.mem_cons_self _ _)
    obtain ⟨rl, hrle, hwrl⟩ := region_entry_of_border_mem s hWF hInv d hd1
      hdD w bid (by rw [bordersSeq, hbl]; exact hbidbl)
    have hmr : s._regions.get? (d - 1).toNat =
        some (Topomesh.rmap s (d - 1).toNat) :=
      hWF.regions_get (d - 1).toNat (by omega)
    have hrAt : rmapAt s (d - 1) = Topomesh.rmap s (d - 1).toNat :=
      rmapAt_eq s (d - 1) _ (by omega) hmr
    have hrle' : IdMap.get? (Topomesh.rmap s (d - 1).toNat) bid = some rl := by
      rw [← hrAt]; exact hrle
    have hok := unlink_ok s d w bid _ _ bl rl hd1 hmb hbl' hbidbl hmr hrle'
      hwrl
    have hpres := unlink_preserves s hWF hInv d w bid _ _ bl rl hd1 hdD hmb
      hbl' hbidbl hmr hrle' hwrl
    set s1 : Topomesh :=
      { deg := s.deg
        _borders := s._borders.set d.toNat
          (some (IdMap.set (Topomesh.bmap s d.toNat) w (bl.erase bid)))
        _regions := s._regions.set (d - 1).toNat
          (IdMap.set (Topomesh.rmap s (d - 1).toNat) bid (rl.erase w)) }
      with hs1
    have hs1b : s1._borders.get? d.toNat =
        some (some (IdMap.set (Topomesh.bmap s d.toNat) w (bl.erase bid))) := by
      rw [hs1]
      show (s._borders.set d.toNat _).get? d.toNat = _
      rw [List.get?_set_eq, hmb]
      rfl
    have hs1bAt : bmapAt s1 d =
        IdMap.set (Topomesh.bmap s d.toNat) w (bl.erase bid) :=
      bmapAt_eq s1 d _ (by omega) hs1b
    obtain ⟨s', hloop, hWF', hInv', hdeg', hB', hR', hbl''⟩ :=
      ih s1 hpres.1 hpres.2 (by rw [hs1]; exact hdD)
        (List.nodup_cons.mp hnd).2
        ⟨bl.erase bid, by rw [hs1bAt]; exact IdMap.get?_set_self _ _ _,
          fun bid' hbid' => by
            have hne : bid' ≠ bid := fun h =>
              (List.nodup_cons.mp hnd).1 (h ▸ hbid')
            exact (List.mem_erase_of_ne hne).mpr
              (hmem bid' (List.mem_cons_of_mem _ hbid'))⟩
    refine ⟨s', ?_, hWF', hInv', by rw [hdeg', hs1], ?_, ?_, hbl''⟩
    · rw [Topomesh.unlinkBordersLoop, hok]
      exact hloop
    · intro j hj
      rw [hB' j hj, hs1]
      show (s._borders.set d.toNat _).get? j = _
      rw [List.get?_set_ne _ _ (fun h => hj h.symm)]
    · intro j hj
      rw [hR' j hj, hs1]
      show (s._regions.set (d - 1).toNat _).get? j = _
      rw [List.get?_set_ne _ _ (fun h => hj h.symm)]

/-! ## Error executions leave the store unchanged -/

theorem err_pair_eq {α : Type} {e1 e : MeshErr} {t1 t : Topomesh}
    (h : (Except.error (e1, t1) : Except (MeshErr × Topomesh) α) =
      .error (e, t)) : t = t1 := by
  cases h
  rfl

theorem removeFirst_some (l l' : WList) (x : Nat)
    (h : removeFirst l x = some l') : x ∈ l ∧ l' = l.erase x := by
  rw [removeFirst] at h
  by_cases hx : x ∈ l
  · rw [if_pos hx] at h
    cases h
    exact ⟨hx, rfl⟩
  · rw [if_neg hx] at h
    cases h

theorem pyGet_pos_info {α : Type} (l : List α) (i : Int) (j : Nat) (a : α)
    (h0 : 0 ≤ i) (h : pyGet l i = some (j, a)) :
    j = i.toNat ∧ i < (l.length : Int) ∧ l.get? i.toNat = some a := by
  rw [pyGet, pyResolve, if_pos h0] at h
  by_cases hlt : i < (l.length : Int)
  · rw [if_pos hlt] at h
    simp only [Option.some_bind] at h
    rcases hg : l.get? i.toNat with _ | a'
    · rw [hg] at h; cases h
    · rw [hg] at h
      injection h with h2
      injection h2 with h3 h4
      subst h4
      exact ⟨h3.symm, hlt, rfl⟩
  · rw [if_neg hlt] at h
    cases h

theorem unlink_err_unchanged (s : Topomesh) (hWF : MeshWF s)
    (hInv : SymInv s) (d : Int) (w b : Nat) (e : MeshErr) (t : Topomesh)
    (h : Topomesh.unlink s d w b = .error (e, t)) : t = s := by
  by_cases hd : d < 1
  · rw [Topomesh.unlink, if_pos hd] at h
    exact err_pair_eq h
  rw [Topomesh.unlink, if_neg hd] at h
  rcases hpg : pyGet s._borders d with _ | ⟨j, o⟩
  · simp only [hpg] at h
    exact err_pair_eq h
  rcases o with _ | m
  · simp only [hpg] at h
    exact err_pair_eq h
  simp only [hpg] at h
  rcases hgw : IdMap.get? m w with _ | bl
  · simp only [hgw] at h
    exact err_pair_eq h
  simp only [hgw] at h
  rcases hrf : removeFirst bl b with _ | bl'
  · simp only [hrf] at h
    exact err_pair_eq h
  simp only [hrf] at h
  -- the two later error branches are unreachable from an invariant state
  obtain ⟨hj, hlt, hget⟩ := pyGet_pos_info _ _ _ _ (by omega) hpg
  have hlen1 : s._borders.length = s.deg + 1 := hWF.1
  have hlen2 : s._regions.length = max s.deg 1 := hWF.2.1
  have hdD : d ≤ (s.deg : Int) := by omega
  obtain ⟨hbin, -⟩ := removeFirst_some _ _ _ hrf
  have hmem : b ∈ bordersSeq s d w := by
    rw [bordersSeq, bmapAt, hpg, hgw]
    exact hbin
  obtain ⟨rl, hrle, hwin⟩ := region_entry_of_border_mem s hWF hInv d
    (by omega) hdD w b hmem
  have hmr : s._regions.get? (d - 1).toNat =
      some (Topomesh.rmap s (d - 1).toNat) :=
    hWF.regions_get (d - 1).toNat (by omega)
  have hrAt : rmapAt s (d - 1) = Topomesh.rmap s (d - 1).toNat :=
    rmapAt_eq s (d - 1) _ (by omega) hmr
  have hpg2 : pyGet (Topomesh.setB s j (IdMap.set m w bl'))._regions
      (d - 1) = some ((d - 1).toNat, Topomesh.rmap s (d - 1).toNat) :=
    pyGet_of_nonneg _ _ _ (by omega) hmr
  simp only [hpg2] at h
  have hrle' : IdMap.get? (Topomesh.rmap s (d - 1).toNat) b = some rl := by
    rw [← hrAt]
    exact hrle
  simp only [hrle'] at h
  rw [removeFirst, if_pos hwin] at h
  cases h

theorem add_wisp_err_unchanged (s : Topomesh) (hWF : MeshWF s) (d : Int)
    (w? : Option Nat) (e : MeshErr) (t : Topomesh)
    (h : Topomesh.add_wisp s d w? = .error (e, t)) : t = s := by
  by_cases hd : d > 0
  · rw [Topomesh.add_wisp, if_pos hd] at h
    rcases hpg : pyGet s._borders d with _ | ⟨j, o⟩
    · simp only [hpg] at h
      exact err_pair_eq h
    rcases o with _ | m
    · simp only [hpg] at h
      exact err_pair_eq h
    simp only [hpg] at h
    rcases hadd : IdMap.add m [] w? with e' | ⟨w, m'⟩
    · simp only [hadd] at h
      exact err_pair_eq h
    simp only [hadd] at h
    by_cases hdlt : d < ((Topomesh.setB s j m').deg : Int)
    · rw [if_pos hdlt] at h
      obtain ⟨hj, hlt, hget⟩ := pyGet_pos_info _ _ _ _ (by omega) hpg
      have hlen1 : s._borders.length = s.deg + 1 := hWF.1
      have hlen2 : s._regions.length = max s.deg 1 := hWF.2.1
      have hdeg : (Topomesh.setB s j m').deg = s.deg := rfl
      rw [hdeg] at hdlt
      have hmr : s._regions.get? d.toNat =
          some (Topomesh.rmap s d.toNat) :=
        hWF.regions_get d.toNat (by omega)
      have hpg2 : pyGet (Topomesh.setB s j m')._regions d =
          some (d.toNat, Topomesh.rmap s d.toNat) :=
        pyGet_of_nonneg _ _ _ (by omega) hmr
      simp only [hpg2] at h
      cases h
    · rw [if_neg hdlt] at h
      cases h
  · rw [Topomesh.add_wisp, if_neg hd] at h
    rcases hpg : pyGet s._regions d with _ | ⟨i, rm⟩
    · simp only [hpg] at h
      exact err_pair_eq h
    simp only [hpg] at h
    by_cases hi : i = 0
    · rw [if_pos hi] at h
      rcases hadd : IdMap.add rm [] w? with e' | ⟨w, rm'⟩
      · simp only [hadd] at h
        exact err_pair_eq h
      · simp only [hadd] at h
        cases h
    · rw [if_neg hi] at h
      exact err_pair_eq h

theorem link_err_cases (s : Topomesh) (hWF : MeshWF s) (d : Int)
    (w b : Nat) (e : MeshErr) (t : Topomesh)
    (h : Topomesh.link s d w b = .error (e, t)) :
    t = s ∨
    (e = .invalidWisp ∧ 1 ≤ d ∧
      IdMap.get? (rmapAt s (d - 1)) b = none ∧
      ∃ m bl, pyGet s._borders d = some (d.toNat, some m) ∧
        IdMap.get? m w = some bl ∧
        t = Topomesh.setB s d.toNat (IdMap.set m w (bl ++ [b]))) := by
  by_cases hd : d < 1
  · rw [Topomesh.link, if_pos hd] at h
    exact Or.inl (err_pair_eq h)
  rw [Topomesh.link, if_neg hd] at h
  rcases hpg : pyGet s._borders d with _ | ⟨j, o⟩
  · simp only [hpg] at h
    exact Or.inl (err_pair_eq h)
  rcases o with _ | m
  · simp only [hpg] at h
    exact Or.inl (err_pair_eq h)
  simp only [hpg] at h
  rcases hgw : IdMap.get? m w with _ | bl
  · simp only [hgw] at h
    exact Or.inl (err_pair_eq h)
  simp only [hgw] at h
  obtain ⟨hj, hlt, hget⟩ := pyGet_pos_info _ _ _ _ (by omega) hpg
  have hlen1 : s._borders.length = s.deg + 1 := hWF.1
  have hlen2 : s._regions.length = max s.deg 1 := hWF.2.1
  have hmr : s._regions.get? (d - 1).toNat =
      some (Topomesh.rmap s (d - 1).toNat) :=
    hWF.regions_get (d - 1).toNat (by omega)
  have hpg2 : pyGet (Topomesh.setB s j (IdMap.set m w (bl ++ [b])))._regions
      (d - 1) = some ((d - 1).toNat, Topomesh.rmap s (d - 1).toNat) :=
    pyGet_of_nonneg _ _ _ (by omega) hmr
  simp only [hpg2] at h
  have hrAt : rmapAt s (d - 1) = Topomesh.rmap s (d - 1).toNat :=
    rmapAt_eq s (d - 1) _ (by omega) hmr
  rcases hgb : IdMap.get? (Topomesh.rmap s (d - 1).toNat) b with _ | rl
  · simp only [hgb] at h
    have he : e = .invalidWisp ∧
        t = Topomesh.setB s j (IdMap.set m w (bl ++ [b])) := by
      cases h
      exact ⟨rfl, rfl⟩
    refine Or.inr ⟨he.1, by omega, ?_, m, bl, ?_, hgw, ?_⟩
    · rw [hrAt]; exact hgb
    · rw [← hj]
    · rw [he.2, hj]
  · simp only [hgb] at h
    cases h

/-! ## Evaluation of the offset-1 queries from raw table facts -/

theorem regions_one_err (s : Topomesh) (d : Int) (wid : Nat) (E : MeshErr)
    (hiter : Topomesh.iterRegions s d wid = .error E)
    (hguard : ¬d + 1 > (s.deg : Int)) :
    Topomesh.regions s d wid 1 = .error E := by
  rw [Topomesh.regions, if_neg (by push_cast; omega), Topomesh.regionsWithOffset]
  simp only [Topomesh.setUnion, hiter]

theorem borders_one_err (s : Topomesh) (d : Int) (wid : Nat) (E : MeshErr)
    (hiter : Topomesh.iterBorders s d wid = .error E)
    (hguard : ¬d - 1 < 0) :
    Topomesh.borders s d wid 1 = .error E := by
  rw [Topomesh.borders, if_neg (by push_cast; omega), Topomesh.bordersWithOffset]
  simp only [Topomesh.setUnion, hiter]

theorem regions_one_raw (s : Topomesh) (d : Int) (wid : Nat) (i : Nat)
    (rm : IdMap) (rl : WList) (hpg : pyGet s._regions d = some (i, rm))
    (hg : IdMap.get? rm wid = some rl) (hguard : ¬d + 1 > (s.deg : Int)) :
    ∃ rs, Topomesh.regions s d wid 1 = .ok rs ∧ rs.Nodup ∧
      ∀ x, x ∈ rs ↔ x ∈ rl := by
  have hiter : Topomesh.iterRegions s d wid = .ok rl := by
    simp only [Topomesh.iterRegions, hpg, hg]
  obtain ⟨out, hout, hcar, hnd⟩ := setUnion_spec (Topomesh.iterRegions s d)
    (fun l => Topomesh.regionsWithOffset s 0 (d + 1) l)
    (fun _ x => x ∈ rl) [wid]
    (fun w' hw' => by
      rw [List.mem_singleton.mp hw']
      exact ⟨rl, hiter, rl, rfl, fun x => Iff.rfl⟩) []
  refine ⟨out, ?_, hnd List.nodup_nil, ?_⟩
  · rw [Topomesh.regions, if_neg (by push_cast; omega),
      Topomesh.regionsWithOffset]
    exact hout
  · intro x
    rw [hcar x]
    simp

theorem borders_one_raw (s : Topomesh) (d : Int) (wid : Nat) (j : Nat)
    (m : IdMap) (bl : WList)
    (hpg : pyGet s._borders d = some (j, some m))
    (hg : IdMap.get? m wid = some bl) (hguard : ¬d - 1 < 0) :
    ∃ bs, Topomesh.borders s d wid 1 = .ok bs ∧ bs.Nodup ∧
      ∀ x, x ∈ bs ↔ x ∈ bl := by
  have hiter : Topomesh.iterBorders s d wid = .ok bl := by
    simp only [Topomesh.iterBorders, hpg, hg]
  obtain ⟨out, hout, hcar, hnd⟩ := setUnion_spec (Topomesh.iterBorders s d)
    (fun l => Topomesh.bordersWithOffset s 0 (d - 1) l)
    (fun _ x => x ∈ bl) [wid]
    (fun w' hw' => by
      rw [List.mem_singleton.mp hw']
      exact ⟨bl, hiter, bl, rfl, fun x => Iff.rfl⟩) []
  refine ⟨out, ?_, hnd List.nodup_nil, ?_⟩
  · rw [Topomesh.borders, if_neg (by push_cast; omega),
      Topomesh.bordersWithOffset]
    exact hout
  · intro x
    rw [hcar x]
    simp

theorem delRegionEntry_ok (s2 : Topomesh) (d : Int) (w : Nat) (i : Nat)
    (rm : IdMap) (rl : WList) (hpg : pyGet s2._regions d = some (i, rm))
    (hg : IdMap.get? rm w = some rl) :
    Topomesh.delRegionEntry s2 d w =
      .ok (Topomesh.setR s2 i (IdMap.erase rm w)) := by
  simp only [Topomesh.delRegionEntry, hpg, hg]

theorem delBorderEntry_ok (s3 : Topomesh) (d : Int) (w : Nat) (j : Nat)
    (m : IdMap) (bl : WList)
    (hpg : pyGet s3._borders d = some (j, some m))
    (hg : IdMap.get? m w = some bl) :
    Topomesh.delBorderEntry s3 d w =
      .ok (Topomesh.setB s3 j (IdMap.erase m w)) := by
  simp only [Topomesh.delBorderEntry, hpg, hg]

theorem remove_wisp_err_unchanged (s : Topomesh) (hWF : MeshWF s)
    (hInv : SymInv s) (d : Int) (w : Nat) (e : MeshErr) (t : Topomesh)
    (h : Topomesh.remove_wisp s d w = .error (e, t)) : t = s := by
  have hlen1 : s._borders.length = s.deg + 1 := hWF.1
  have hlen2 : s._regions.length = max s.deg 1 := hWF.2.1
  have hco := hWF.2.2.2.2
  rw [Topomesh.remove_wisp] at h
  by_cases hdD : d < (s.deg : Int)
  · rw [if_pos hdD] at h
    rcases hpg : pyGet s._regions d with _ | ⟨i, rm⟩
    · have hreg : Topomesh.regions s d w 1 = .error .invalidDegree :=
        regions_one_err s d w _ (by simp only [Topomesh.iterRegions, hpg])
          (by omega)
      simp only [hreg, Topomesh.mbind_err] at h
      exact err_pair_eq h
    rcases hgw : IdMap.get? rm w with _ | rl
    · have hreg : Topomesh.regions s d w 1 = .error .invalidWisp :=
        regions_one_err s d w _
          (by simp only [Topomesh.iterRegions, hpg, hgw]) (by omega)
      simp only [hreg, Topomesh.mbind_err] at h
      exact err_pair_eq h
    obtain ⟨rs, hrs, hnd, hmem⟩ := regions_one_raw s d w i rm rl hpg hgw
      (by omega)
    simp only [hrs] at h
    by_cases hd0 : 0 ≤ d
    · -- 0 ≤ d < D: the full cascade runs and never fails
      obtain ⟨hi, hlt, hget⟩ := pyGet_pos_info _ _ _ _ hd0 hpg
      have hrAt : rmapAt s d = rm := by rw [rmapAt, hpg]
      obtain ⟨s1, hloop, hWF1, hInv1, hdeg1, hB1, hR1, rl1, hrl1⟩ :=
        unlinkRegionsLoop_ok d w hd0 rs s hWF hInv hdD hnd
          ⟨rl, by rw [hrAt]; exact hgw, fun rid hr => (hmem rid).mp hr⟩
      simp only [hloop, Topomesh.mbind_ok] at h
      have hrm_eq : Topomesh.rmap s d.toNat = rm := by
        rw [Topomesh.rmap, hget]
        rfl
      have y2 : s1._regions.get? d.toNat =
          some (Topomesh.rmap s1 d.toNat) :=
        hWF1.regions_get d.toNat (by omega)
      have y3 : rmapAt s1 d = Topomesh.rmap s1 d.toNat :=
        rmapAt_eq s1 d _ hd0 y2
      have y4 : IdMap.get? (Topomesh.rmap s1 d.toNat) w = some rl1 := by
        rw [← y3]
        exact hrl1
      by_cases hd1 : d > 0
      · rw [if_pos hd1] at h
        have p1 : s1._borders.get? d.toNat =
            some (some (Topomesh.bmap s d.toNat)) := by
          rw [hB1 d.toNat (by omega)]
          exact hWF.borders_get d.toNat (by omega) (by omega)
        have p2 : pyGet s1._borders d =
            some (d.toNat, some (Topomesh.bmap s d.toNat)) :=
          pyGet_of_nonneg _ _ _ hd0 p1
        have hws : (IdMap.get? (Topomesh.rmap s d.toNat) w).isSome := by
          rw [hrm_eq, hgw]
          rfl
        have hwb : (IdMap.get? (Topomesh.bmap s d.toNat) w).isSome :=
          (hco d.toNat (by omega) (by omega) w).mpr hws
        rcases hgbl : IdMap.get? (Topomesh.bmap s d.toNat) w with _ | bl2
        · rw [hgbl] at hwb; cases hwb
        obtain ⟨bs, hbs, hbsnd, hbsmem⟩ := borders_one_raw s1 d w d.toNat
          (Topomesh.bmap s d.toNat) bl2 p2 hgbl (by omega)
        simp only [hbs] at h
        have hbAt1 : bmapAt s1 d = Topomesh.bmap s d.toNat :=
          bmapAt_eq s1 d _ hd0 p1
        obtain ⟨s2, hloop2, hWF2, hInv2, hdeg2, hB2, hR2, bl3, hbl2⟩ :=
          unlinkBordersLoop_ok d w (by omega) bs s1 hWF1 hInv1
            (by rw [hdeg1]; omega) hbsnd
            ⟨bl2, by rw [hbAt1]; exact hgbl,
              fun bid hbid => (hbsmem bid).mp hbid⟩
        simp only [hloop2, Topomesh.mbind_ok] at h
        rw [if_pos (show d < (s2.deg : Int) by rw [hdeg2, hdeg1]; exact hdD)]
          at h
        have y1 : s2._regions.get? d.toNat = s1._regions.get? d.toNat :=
          hR2 d.toNat (by omega)
        have y5 : pyGet s2._regions d =
            some (d.toNat, Topomesh.rmap s1 d.toNat) :=
          pyGet_of_nonneg _ _ _ hd0 (y1.trans y2)
        have hdel1 := delRegionEntry_ok s2 d w d.toNat _ rl1 y5 y4
        simp only [hdel1, Topomesh.mbind_ok] at h
        rw [if_pos hd1] at h
        have z1 : s2._borders.get? d.toNat =
            some (some (Topomesh.bmap s2 d.toNat)) :=
          hWF2.borders_get d.toNat (by omega) (by omega)
        have z3 : IdMap.get? (Topomesh.bmap s2 d.toNat) w = some bl3 := by
          rw [← bmapAt_eq s2 d _ hd0 z1]
          exact hbl2
        have z4 : pyGet (Topomesh.setR s2 d.toNat
            (IdMap.erase (Topomesh.rmap s1 d.toNat) w))._borders d =
            some (d.toNat, some (Topomesh.bmap s2 d.toNat)) :=
          pyGet_of_nonneg _ _ _ hd0 z1
        have hdel2 := delBorderEntry_ok _ d w d.toNat _ bl3 z4 z3
        simp only [hdel2] at h
        cases h
      · -- d = 0: the border phase and border deletion are skipped
        rw [if_neg hd1] at h
        simp only [Topomesh.mbind_ok] at h
        rw [if_pos (show d < (s1.deg : Int) by rw [hdeg1]; exact hdD)] at h
        have y5 : pyGet s1._regions d =
            some (d.toNat, Topomesh.rmap s1 d.toNat) :=
          pyGet_of_nonneg _ _ _ hd0 y2
        have hdel1 := delRegionEntry_ok s1 d w d.toNat _ rl1 y5 y4
        simp only [hdel1, Topomesh.mbind_ok] at h
        rw [if_neg hd1] at h
        cases h
    · -- d < 0: the first unlink (if any) fails before any mutation
      rcases hrsc : rs with _ | ⟨r, rest⟩
      · -- no region to unlink: the operation runs to completion
        rw [hrsc] at h
        simp only [Topomesh.unlinkRegionsLoop, Topomesh.mbind_ok] at h
        rw [if_neg (by omega : ¬d > 0)] at h
        simp only [Topomesh.mbind_ok] at h
        rw [if_pos (show d < (s.deg : Int) from hdD)] at h
        have hdel1 := delRegionEntry_ok s d w i rm rl hpg hgw
        simp only [hdel1, Topomesh.mbind_ok] at h
        rw [if_neg (by omega : ¬d > 0)] at h
        cases h
      · rw [hrsc] at h
        simp only [Topomesh.unlinkRegionsLoop, Topomesh.unlink,
          if_pos (show d + 1 < 1 by omega), Topomesh.mbind_err] at h
        exact err_pair_eq h
  · rw [if_neg hdD] at h
    simp only [Topomesh.mbind_ok] at h
    by_cases hd1 : d > 0
    · rw [if_pos hd1] at h
      rcases hpgB : pyGet s._borders d with _ | ⟨j, o⟩
      · have hbq : Topomesh.borders s d w 1 = .error .invalidDegree :=
          borders_one_err s d w _
            (by simp only [Topomesh.iterBorders, hpgB]) (by omega)
        simp only [hbq, Topomesh.mbind_err] at h
        exact err_pair_eq h
      rcases o with _ | m
      · have hbq : Topomesh.borders s d w 1 = .error .otherErr :=
          borders_one_err s d w _
            (by simp only [Topomesh.iterBorders, hpgB]) (by omega)
        simp only [hbq, Topomesh.mbind_err] at h
        exact err_pair_eq h
      rcases hgw : IdMap.get? m w with _ | bl
      · have hbq : Topomesh.borders s d w 1 = .error .invalidWisp :=
          borders_one_err s d w _
            (by simp only [Topomesh.iterBorders, hpgB, hgw]) (by omega)
        simp only [hbq, Topomesh.mbind_err] at h
        exact err_pair_eq h
      -- here d = D exactly, and the border loop runs to completion
      obtain ⟨hj, hlt, hget⟩ := pyGet_pos_info _ _ _ _ (by omega) hpgB
      obtain ⟨bs, hbs, hbsnd, hbsmem⟩ := borders_one_raw s d w j m bl hpgB
        hgw (by omega)
      simp only [hbs] at h
      have hbAt : bmapAt s d = m := by rw [bmapAt, hpgB]
      obtain ⟨s2, hloop2, hWF2, hInv2, hdeg2, hB2, hR2, bl3, hbl2⟩ :=
        unlinkBordersLoop_ok d w (by omega) bs s hWF hInv (by omega) hbsnd
          ⟨bl, by rw [hbAt]; exact hgw, fun bid hbid => (hbsmem bid).mp hbid⟩
      simp only [hloop2, Topomesh.mbind_ok] at h
      rw [if_neg (show ¬d < (s2.deg : Int) by rw [hdeg2]; omega)] at h
      simp only [Topomesh.mbind_ok] at h
      rw [if_pos hd1] at h
      have z1 : s2._borders.get? d.toNat =
          some (some (Topomesh.bmap s2 d.toNat)) :=
        hWF2.borders_get d.toNat (by omega) (by omega)
      have z3 : IdMap.get? (Topomesh.bmap s2 d.toNat) w = some bl3 := by
        rw [← bmapAt_eq s2 d _ (by omega) z1]
        exact hbl2
      have z4 : pyGet s2._borders d =
          some (d.toNat, some (Topomesh.bmap s2 d.toNat)) :=
        pyGet_of_nonneg _ _ _ (by omega) z1
      have hdel2 := delBorderEntry_ok s2 d w d.toNat _ bl3 z4 z3
      simp only [hdel2] at h
      cases h
    · -- d = 0 and D = 0: the operation is a silent no-op
      rw [if_neg hd1] at h
      simp only [Topomesh.mbind_ok] at h
      rw [if_neg hdD] at h
      simp only [Topomesh.mbind_ok] at h
      rw [if_neg hd1] at h
      cases h

/-- Claim C2 (amended): from any well-formed state satisfying the symmetry
invariant, `add_wisp`, `remove_wisp` and `unlink` leave the store
unchanged whenever they report an error, and `link` leaves the store
unchanged for every error except the one the counterexample exhibits:
when it fails because `border_id` does not exist at `degree - 1`, the
already-performed append of `border_id` to `borders(degree, wid)`
persists (see `AtomicSpec`). -/
theorem claim2_amended_atomicity (s : Topomesh) (hWF : MeshWF s)
    (hInv : SymInv s) : AtomicSpec s :=
  ⟨fun d w? e t h => add_wisp_err_unchanged s hWF d w? e t h,
   fun d w e t h => remove_wisp_err_unchanged s hWF hInv d w e t h,
   fun d w b e t h => unlink_err_unchanged s hWF hInv d w b e t h,
   fun d w b e t h => link_err_cases s hWF d w b e t h⟩

/-- Witness for the amended C2 on the concrete state `meshDup`. -/
theorem claim2_witness : AtomicSpec meshDup :=
  claim2_amended_atomicity meshDup (wf_of_check _ (by decide))
    (symInv_of_check meshDup [0] (by decide) (by decide))
